import Mathlib

/-!
# Verification of the poke-arbitrage scan-reconcile-score pipeline

A shallow embedding, in Lean, of the core pipeline of the poke-arbitrage
repository, together with proofs about it:

* `app/tasks/fetch_cherry_listings.py` — the Listing Reconciler (title
  classification, soft-delete/reactivate upsert protocol, pagination loop);
* `app/tasks/fetch_sold_benchmarks.py` — the Benchmark Engine (median,
  comparable filtering, scope filter, freshness skip and per-run cap);
* `app/tasks/identify_cherry_opportunities.py` — the Opportunity Scorer
  (threshold comparison and opportunity upsert).

Modelling conventions: Python `Decimal` values are embedded as `ℚ` (the source
uses exact decimal arithmetic; `Decimal.quantize` to two places is modelled
explicitly by `quantize2`), timestamps as `ℤ`, database tables as Lean lists in
row order with SQLAlchemy `.first()` modelled as `List.find?`, and per-row
`UPDATE` as replacement of the first matching element.  Configuration values
(`cherry_require_in_stock`, `arbitrage_threshold`, `price_floor_aud`,
`price_ceiling_aud`, `sold_benchmark_max_queries_per_run`,
`sold_benchmark_min_age_hours`) are passed as parameters.
-/

set_option maxHeartbeats 1000000
set_option linter.unusedVariables false

namespace PokeArb

/-! ## String helpers (Python `str` operations on ASCII text) -/

/-- `s.upper()` on a character list. -/
def upperL (cs : List Char) : List Char := cs.map Char.toUpper

/-- `s.lower()` on a character list. -/
def lowerL (cs : List Char) : List Char := cs.map Char.toLower

/-- `s.strip()` on a character list. -/
def trimL (cs : List Char) : List Char :=
  ((cs.dropWhile Char.isWhitespace).reverse.dropWhile Char.isWhitespace).reverse

/-- Python `pat in hay` substring containment. -/
def containsL (hay pat : List Char) : Bool := decide (pat <:+: hay)

/-! ## Decimal arithmetic helpers -/

/-- Floor of a rational, computably (`⌊q⌋`). -/
def qfloor (q : ℚ) : ℤ := Int.fdiv q.num q.den

/-- Round half to even, the default rounding of Python `Decimal.quantize`. -/
def round_half_even (q : ℚ) : ℤ :=
  let f := qfloor q
  if q - f < 1/2 then f
  else if 1/2 < q - f then f + 1
  else if f % 2 = 0 then f else f + 1

/-- `Decimal.quantize(Decimal("0.01"))`: round to two decimal places. -/
def quantize2 (q : ℚ) : ℚ := (round_half_even (q * 100) : ℚ) / 100

/-- Python `min` over a list (only applied to non-empty lists in the source). -/
def list_min (l : List ℚ) : ℚ :=
  match l with
  | [] => 0
  | x :: xs => xs.foldl min x

/-- Python `max` over a list (only applied to non-empty lists in the source). -/
def list_max (l : List ℚ) : ℚ :=
  match l with
  | [] => 0
  | x :: xs => xs.foldl max x

/-! ## The Benchmark Engine: `fetch_sold_benchmarks.py` -/

/-- `_median_dec(values)`: `sorted` the list, take the middle element for odd
length, the mean of the two middle elements for even length, `0` for `[]`. -/
def median_dec (values : List ℚ) : ℚ :=
  if values = [] then 0
  else
    let vals := values.insertionSort (· ≤ ·)
    let n := vals.length
    let mid := n / 2
    if n % 2 = 1 then vals.getD mid 0
    else (vals.getD (mid - 1) 0 + vals.getD mid 0) / 2

/-- `_is_jp_title(t)` (the copy in `fetch_sold_benchmarks.py`; the copy in
`fetch_cherry_listings.py` is textually identical). -/
def is_jp_title (title : String) : Bool :=
  let t := upperL title.toList
  containsL t "JAPANESE".toList || containsL t "JPN".toList
    || containsL ([' '] ++ t ++ [' ']) " JP ".toList
    || containsL t "JP-".toList || containsL t "JP_".toList

/-- The `data_source` tag `f"ebay_browse_{grader}_{grade}"`. -/
def data_source_for (grader : String) (grade : Nat) : String :=
  "ebay_browse_" ++ grader ++ "_" ++ toString grade

/-- A comparable item as returned by `ebay_browse.parse_listings`: a title and
an optional AUD price (`None` when no price could be extracted). -/
structure CompItem where
  title : String
  priceAud : Option ℚ
deriving DecidableEq

/-- The grader-token check on a comparable title (`fetch_sold_benchmarks.py`
lines 191-197): `PSA` and `CGC` titles must contain the grade token; any other
grader passes through unchecked. -/
def grader_title_ok (grader : String) (grade : Nat) (titleU : List Char) : Bool :=
  let graderU := String.mk (upperL grader.toList)
  if graderU == "PSA" then
    containsL titleU (String.toList ("PSA " ++ toString grade))
      || containsL titleU (String.toList ("PSA" ++ toString grade))
  else if graderU == "CGC" then
    containsL titleU (String.toList ("CGC " ++ toString grade))
      || containsL titleU (String.toList ("CGC" ++ toString grade))
      || containsL titleU (String.toList ("CGC PRISTINE " ++ toString grade))
  else true

/-- The per-item comparable filter (grader token in title, language stream
separation, parseable price); returns the price to keep, if any. -/
def keep_comparable (language grader : String) (grade : Nat) (it : CompItem) :
    Option ℚ :=
  let titleU := upperL it.title.toList
  if !grader_title_ok grader grade titleU then none
  else
    let langU := String.mk (upperL (if language == "" then "EN" else language).toList)
    if langU == "JP" then
      if !is_jp_title it.title then none else it.priceAud
    else
      if is_jp_title it.title then none else it.priceAud

/-- The `prices` list built by the per-listing loop of `fetch_sold_benchmarks`. -/
def comparable_prices (language grader : String) (grade : Nat)
    (items : List CompItem) : List ℚ :=
  items.filterMap (keep_comparable language grader grade)

/-- A persisted `SoldBenchmark` row. -/
structure SoldBenchmark where
  searchQueryId : Nat
  marketPrice : ℚ
  dataSource : String
  sampleSize : Nat
  minPrice : ℚ
  maxPrice : ℚ
  calculatedAt : Int
deriving DecidableEq

/-- Outcome of a single eBay Browse API call for one candidate, as seen from
`fetch_sold_benchmarks`: a rate-limit (HTTP 429) response — which
`ebay_browse.search_listings` surfaces as a raised exception like any other
non-200 status — any other HTTP/transport error, or a successful response
already parsed into comparable items (`parse_listings` swallows per-item parse
errors internally). -/
inductive FetchOutcome where
  | rateLimited
  | httpError
  | ok (items : List CompItem)
deriving DecidableEq

/-- One `(grader, grade)` combination candidate for a query, together with the
world the task observes for it: the `calculated_at` of the most recent
`SoldBenchmark` row whose `data_source` matches this combination (`none` when
absent or null), and the outcome of the external call were it made. -/
structure Combo where
  grader : String
  grade : Nat
  latestTs : Option Int
  fetch : FetchOutcome
deriving DecidableEq

/-- One active `SearchQuery` candidate with its combinations. -/
structure QueryCand where
  id : Nat
  language : String
  combos : List Combo
deriving DecidableEq

/-- The mutable run state of `fetch_sold_benchmarks`: the counters and the
append-only benchmark table. -/
structure BenchState where
  stored : Nat
  filtered : Nat
  errors : Nat
  processed : Nat
  benchmarks : List SoldBenchmark
deriving DecidableEq

/-- The freshness check (line 159): skip when the latest matching benchmark has
`calculated_at >= recent_cutoff`. -/
def is_recent (c : Combo) (cutoff : Int) : Bool :=
  match c.latestTs with
  | some ts => decide (cutoff ≤ ts)
  | none => false

/-- The benchmark row built and inserted at lines 223-232. -/
def mk_benchmark (qid : Nat) (c : Combo) (now : Int) (prices : List ℚ) :
    SoldBenchmark :=
  { searchQueryId := qid
    marketPrice := quantize2 (median_dec prices)
    dataSource := data_source_for c.grader c.grade
    sampleSize := prices.length
    minPrice := quantize2 (list_min prices)
    maxPrice := quantize2 (list_max prices)
    calculatedAt := now }

/-- The body of the per-combination `try` block of `fetch_sold_benchmarks`
(fetch, comparable filtering, median, scope filter, insert) together with its
`except` handlers: any raised error — a rate-limit response included — is
counted in `errors` and the loop continues. -/
def process_combo (floorP ceilingP : ℚ) (now : Int) (qid : Nat)
    (language : String) (c : Combo) (st : BenchState) : BenchState :=
  match c.fetch with
  | .rateLimited => { st with errors := st.errors + 1 }
  | .httpError => { st with errors := st.errors + 1 }
  | .ok items =>
    let prices := comparable_prices language c.grader c.grade items
    if prices = [] then { st with filtered := st.filtered + 1 }
    else
      let market := median_dec prices
      if market ≥ ceilingP ∨ market < floorP then
        { st with filtered := st.filtered + 1 }
      else
        { st with stored := st.stored + 1
                  benchmarks := st.benchmarks ++ [mk_benchmark qid c now prices] }

/-- The inner `for grader, grade in combinations` loop: skip fresh combinations,
otherwise count the candidate in `processed`, break once `processed > max_q`,
and run the computation. -/
def run_combos (maxQ : Nat) (cutoff : Int) (floorP ceilingP : ℚ) (now : Int)
    (qid : Nat) (language : String) : List Combo → BenchState → BenchState
  | [], st => st
  | c :: rest, st =>
    if is_recent c cutoff then
      run_combos maxQ cutoff floorP ceilingP now qid language rest st
    else
      let st1 : BenchState := { st with processed := st.processed + 1 }
      if maxQ < st1.processed then st1
      else
        run_combos maxQ cutoff floorP ceilingP now qid language rest
          (process_combo floorP ceilingP now qid language c st1)

/-- The outer `for q in queries` loop: break at the head when
`processed >= max_q`, skip queries without combinations, otherwise run the
inner loop. -/
def run_queries (maxQ : Nat) (cutoff : Int) (floorP ceilingP : ℚ) (now : Int) :
    List QueryCand → BenchState → BenchState
  | [], st => st
  | q :: rest, st =>
    if maxQ ≤ st.processed then st
    else if q.combos = [] then run_queries maxQ cutoff floorP ceilingP now rest st
    else
      run_queries maxQ cutoff floorP ceilingP now rest
        (run_combos maxQ cutoff floorP ceilingP now q.id q.language q.combos st)

/-- The number of new benchmark computations a run actually performed: every
entry into the `try` block increments exactly one of the three counters. -/
def computations (st : BenchState) : Nat := st.stored + st.filtered + st.errors

/-! ## Shared data model rows -/

/-- A `SearchQuery` row (`app/models/search_query.py`); `(query_text, language)`
is unique by constraint. -/
structure SearchQuery where
  id : Nat
  queryText : String
  cardName : String
  language : String
  isActive : Bool
deriving DecidableEq

/-- A `CherryListing` row (`app/models/cherry_listing.py`). -/
structure CherryListing where
  id : Nat
  searchQueryId : Nat
  productId : Nat
  variantId : Nat
  title : String
  handle : String
  productUrl : String
  imageUrl : String
  priceAud : ℚ
  language : String
  grader : String
  grade : Nat
  inStock : Bool
  isActive : Bool
  scrapedAt : Int
  lastSeenAt : Int
deriving DecidableEq

/-- A `CherryOpportunity` row (`app/models/cherry_opportunity.py`); the
database-assigned surrogate primary key is left implicit, row identity being
carried by list position. -/
structure CherryOpportunity where
  cherryListingId : Nat
  searchQueryId : Nat
  cardName : String
  productTitle : String
  storePrice : ℚ
  marketPrice : ℚ
  discountPercentage : ℚ
  potentialProfit : ℚ
  productUrl : String
  imageUrl : String
  inStock : Bool
  isActive : Bool
  discoveredAt : Int
  lastVerifiedAt : Int
deriving DecidableEq

/-- Replace the first element satisfying `p` by its image under `f`: an SQL
`UPDATE` of the single row found by `.first()`. -/
def updateFirst {α : Type} (p : α → Bool) (f : α → α) : List α → List α
  | [] => []
  | x :: xs => if p x then f x :: xs else x :: updateFirst p f xs

/-! ## The Opportunity Scorer: `identify_cherry_opportunities.py` -/

/-- The benchmark lookup of lines 60-67: filter by query id, `data_source` tag
and the 24h recency cutoff, then `.order_by(calculated_at.desc()).first()` —
an element of maximal `calculated_at`, ties broken toward the earlier row
(one valid ordering of rows the database may return). -/
def latest_benchmark (benchmarks : List SoldBenchmark) (qid : Nat) (ds : String)
    (cutoff : Int) : Option SoldBenchmark :=
  (benchmarks.filter (fun b =>
      b.searchQueryId == qid && b.dataSource == ds && decide (cutoff ≤ b.calculatedAt))).foldl
    (fun acc b =>
      match acc with
      | none => some b
      | some a => if a.calculatedAt < b.calculatedAt then some b else some a)
    none

/-- The update branch of `_create_or_update`: refresh the existing active
opportunity row in place (lines 121-132). -/
def refresh_opportunity (q : SearchQuery) (listing : CherryListing)
    (marketPrice storePrice : ℚ) (now : Int) (o : CherryOpportunity) :
    CherryOpportunity :=
  { o with
    cardName := q.cardName
    productTitle := listing.title
    storePrice := storePrice
    marketPrice := marketPrice
    discountPercentage := (marketPrice - storePrice) / marketPrice * 100
    potentialProfit := marketPrice - storePrice
    productUrl := listing.productUrl
    imageUrl := listing.imageUrl
    inStock := listing.inStock
    lastVerifiedAt := now }

/-- The insert branch of `_create_or_update` (lines 134-150). -/
def new_opportunity (q : SearchQuery) (listing : CherryListing)
    (marketPrice storePrice : ℚ) (now : Int) : CherryOpportunity :=
  { cherryListingId := listing.id
    searchQueryId := q.id
    cardName := q.cardName
    productTitle := listing.title
    storePrice := storePrice
    marketPrice := marketPrice
    discountPercentage := (marketPrice - storePrice) / marketPrice * 100
    potentialProfit := marketPrice - storePrice
    productUrl := listing.productUrl
    imageUrl := listing.imageUrl
    inStock := listing.inStock
    isActive := true
    discoveredAt := now
    lastVerifiedAt := now }

/-- The predicate of the `existing` lookup in `_create_or_update`: the active
opportunity row for this listing. -/
def opp_for_listing (listingId : Nat) (o : CherryOpportunity) : Bool :=
  o.cherryListingId == listingId && o.isActive

/-- `_create_or_update` over the opportunity table: update the existing active
row in place if one exists, otherwise append a fresh row. -/
def create_or_update (q : SearchQuery) (listing : CherryListing)
    (marketPrice storePrice : ℚ) (now : Int)
    (opps : List CherryOpportunity) : List CherryOpportunity :=
  match opps.find? (opp_for_listing listing.id) with
  | some _ =>
    updateFirst (opp_for_listing listing.id)
      (refresh_opportunity q listing marketPrice storePrice now) opps
  | none => opps ++ [new_opportunity q listing marketPrice storePrice now]

/-- The per-listing body of the scorer loop (`identify_cherry_opportunities`
lines 52-81): stock gate, benchmark lookup with the exact grader/grade
`data_source` tag, threshold comparison, query lookup, and upsert.  The
listings the loop ranges over are pre-filtered to active rows seen within the
listing recency cutoff; those conditions appear as hypotheses of the theorems
below. -/
def score_listing (requireInStock : Bool) (threshold : ℚ) (cutoffBench : Int)
    (benchmarks : List SoldBenchmark) (queries : List SearchQuery) (now : Int)
    (opps : List CherryOpportunity) (listing : CherryListing) :
    List CherryOpportunity :=
  if requireInStock && !listing.inStock then opps
  else
    match latest_benchmark benchmarks listing.searchQueryId
        (data_source_for listing.grader listing.grade) cutoffBench with
    | none => opps
    | some latest =>
      if listing.priceAud < latest.marketPrice * threshold then
        match queries.find? (fun q => q.id == listing.searchQueryId) with
        | none => opps
        | some q => create_or_update q listing latest.marketPrice listing.priceAud now opps
      else opps

/-! ## The Listing Reconciler: `fetch_cherry_listings.py` -/

/-- `_is_psa10(title, tags)`: a strict title check; tags are not consulted. -/
def is_psa10 (title : String) (tags : List String) : Bool :=
  let t := upperL title.toList
  containsL t "PSA 10".toList || containsL t "PSA10".toList

/-- `_is_cgc10(title, tags)`. -/
def is_cgc10 (title : String) (tags : List String) : Bool :=
  let t := upperL title.toList
  containsL t "CGC 10".toList || containsL t "CGC10".toList
    || containsL t "CGC PRISTINE 10".toList

/-- `_detect_grading(title, tags)`: `("PSA", 10)`, `("CGC", 10)`, or nothing. -/
def detect_grading (title : String) (tags : List String) : Option (String × Nat) :=
  if is_psa10 title tags then some ("PSA", 10)
  else if is_cgc10 title tags then some ("CGC", 10)
  else none

/-- A character matched by `_WORD_RE = [a-z0-9]+` after lowercasing. -/
def word_token_char (c : Char) : Bool :=
  c.isDigit || (97 ≤ c.toNat && c.toNat ≤ 122)

/-- Accumulator pass behind `word_tokens`. -/
def tokens_aux : List Char → List Char → List (List Char)
  | [], acc => if acc = [] then [] else [acc.reverse]
  | c :: cs, acc =>
    if word_token_char c then tokens_aux cs (c :: acc)
    else if acc = [] then tokens_aux cs []
    else acc.reverse :: tokens_aux cs []

/-- `_WORD_RE.findall(s.lower())`: maximal `[a-z0-9]` runs of the lowercased
text, in order. -/
def word_tokens (cs : List Char) : List (List Char) :=
  tokens_aux (lowerL cs) []

/-- `re.sub(r"\s+\d{2,}$", "", t)`: drop a trailing run of two or more digits
preceded by at least one whitespace character. -/
def strip_trailing_inventory (cs : List Char) : List Char :=
  let rev := cs.reverse
  let ds := rev.takeWhile Char.isDigit
  let rest := rev.dropWhile Char.isDigit
  if 2 ≤ ds.length ∧ rest.takeWhile Char.isWhitespace ≠ [] then
    (rest.dropWhile Char.isWhitespace).reverse
  else cs

/-- Python `\w`: a word character. -/
def is_word_char (c : Char) : Bool := c.isAlphanum || c == '_'

/-- The trailing `\b` of the card-number pattern: the next character of the
text, if any, must not be a word character. -/
def boundary_ok (r5 : List Char) : Bool :=
  match r5 with
  | [] => true
  | c2 :: _ => !is_word_char c2

/-- Attempt to match `\d{1,4}\s*/\s*\d{1,4}\b` at the head of `cs`, which is
assumed to sit at a word boundary and start with a digit; returns the suffix
after the match.  A digit run longer than four characters can never take part
in a match: every backtracking split leaves a digit where `/` or a word
boundary is required, exactly as in the Python regex engine. -/
def match_card_number (cs : List Char) : Option (List Char) :=
  let d1 := cs.takeWhile Char.isDigit
  let r1 := cs.dropWhile Char.isDigit
  if d1.length < 1 ∨ 4 < d1.length then none
  else
    match r1.dropWhile Char.isWhitespace with
    | '/' :: r3 =>
      let r4 := r3.dropWhile Char.isWhitespace
      let d2 := r4.takeWhile Char.isDigit
      let r5 := r4.dropWhile Char.isDigit
      if (1 ≤ d2.length ∧ d2.length ≤ 4) ∧ boundary_ok r5 = true then some r5
      else none
    | _ => none

theorem length_dropWhile_le {α : Type} (p : α → Bool) (l : List α) :
    (l.dropWhile p).length ≤ l.length := by
  induction l with
  | nil => simp
  | cons a l ih =>
    by_cases h : p a
    · rw [List.dropWhile_cons_of_pos h]
      exact Nat.le_succ_of_le ih
    · rw [List.dropWhile_cons_of_neg h]

theorem match_card_number_length {cs rest : List Char}
    (h : match_card_number cs = some rest) : rest.length < cs.length := by
  simp only [match_card_number] at h
  split at h
  · exact absurd h (by simp)
  · split at h
    next r3 heq =>
      split at h
      · have h5 : rest = (r3.dropWhile Char.isWhitespace).dropWhile Char.isDigit := by
          simpa using h.symm
        have h1 : rest.length ≤ r3.length := by
          rw [h5]
          exact le_trans (length_dropWhile_le _ _)
            (length_dropWhile_le Char.isWhitespace r3)
        have h2 : ('/' :: r3).length ≤ (cs.dropWhile Char.isDigit).length := by
          rw [← heq]
          exact length_dropWhile_le _ _
        have h3 : (cs.dropWhile Char.isDigit).length ≤ cs.length :=
          length_dropWhile_le _ _
        simp only [List.length_cons] at h2
        omega
      · exact absurd h (by simp)
    next heq => exact absurd h (by simp)

/-- The scan of `re.sub(r"\b\d{1,4}\s*/\s*\d{1,4}\b", "", t)`: walk the text
replacing every non-overlapping match by nothing; the boolean carries whether
the previous retained character of the original text is a word character (the
`\b` context).  Recursion is on an explicit fuel so the definition stays
structural; every step consumes at least one character, so fuel equal to the
text length (as supplied by `remove_card_numbers`) never runs out. -/
def remove_card_numbers_go : Nat → List Char → Bool → List Char
  | 0, cs, _ => cs
  | _ + 1, [], _ => []
  | fuel + 1, c :: cs, prevWord =>
    if prevWord = false ∧ Char.isDigit c then
      match match_card_number (c :: cs) with
      | some rest => remove_card_numbers_go fuel rest true
      | none => c :: remove_card_numbers_go fuel cs true
    else c :: remove_card_numbers_go fuel cs (is_word_char c)

/-- The full card-number substitution over a text. -/
def remove_card_numbers (cs : List Char) (prevWord : Bool) : List Char :=
  remove_card_numbers_go cs.length cs prevWord

/-- `_derive_query_from_title(title)`: strip language and grading noise and an
inventory suffix, drop card-number patterns, then normalize into the
`(query_text, card_name)` pair. -/
def derive_query_from_title (title : String) : String × String :=
  let t0 := trimL title.toList
  let u0 := upperL t0
  let t1 :=
    if "JAPANESE ".toList.isPrefixOf u0 then trimL (t0.drop 9)
    else if "CHINESE ".toList.isPrefixOf u0 then trimL (t0.drop 8)
    else if "KOREAN ".toList.isPrefixOf u0 then trimL (t0.drop 7)
    else t0
  let u1 := upperL t1
  let t2 :=
    if "PSA 10 ".toList.isPrefixOf u1 then trimL (t1.drop 7)
    else if "PSA10 ".toList.isPrefixOf u1 then trimL (t1.drop 6)
    else t1
  let t3 := trimL (strip_trailing_inventory t2)
  let t4 := trimL (remove_card_numbers t3 false)
  let queryText := List.intercalate [' '] (word_tokens t4)
  let cardName := if t4 = [] then title.toList.take 255 else t4.take 255
  (String.mk (queryText.take 255), String.mk cardName)

/-- A raw Shopify product variant from the Cherry feed
(`app/api/cherry_shopify.py`, `CherryProduct`). -/
structure CherryProduct where
  productId : Nat
  variantId : Nat
  title : String
  handle : String
  productUrl : String
  imageUrl : String
  priceAud : ℚ
  inStock : Bool
  tags : List String
deriving DecidableEq

/-- The persistent state `fetch_cherry_listings` reads and writes: the
`search_queries` and `cherry_listings` tables in row order, with the next
database-assigned primary keys. -/
structure ReconState where
  queries : List SearchQuery
  nextQueryId : Nat
  listings : List CherryListing
  nextListingId : Nat
deriving DecidableEq

/-- The `(query_text, language)` lookup-or-create of lines 172-187. -/
def ensure_query (st : ReconState) (qt cn lang : String) : ReconState × Nat :=
  match st.queries.find? (fun q => q.queryText == qt && q.language == lang) with
  | some q => (st, q.id)
  | none =>
    ({ st with
        queries := st.queries ++
          [{ id := st.nextQueryId, queryText := qt, cardName := cn,
             language := lang, isActive := true }]
        nextQueryId := st.nextQueryId + 1 },
      st.nextQueryId)

/-- The natural-key match of the listing upsert (lines 191-196). -/
def listing_key_match (p : CherryProduct) (l : CherryListing) : Bool :=
  l.productId == p.productId && l.variantId == p.variantId

/-- The update branch of the listing upsert (lines 198-213): overwrite every
mutable field, refresh `last_seen_at`, and reactivate. -/
def refresh_listing (sqId : Nat) (lang grader : String) (grade : Nat)
    (now : Int) (p : CherryProduct) (l : CherryListing) : CherryListing :=
  { l with
    searchQueryId := sqId
    title := p.title
    handle := p.handle
    productUrl := p.productUrl
    imageUrl := p.imageUrl
    priceAud := p.priceAud
    inStock := p.inStock
    language := lang
    grader := grader
    grade := grade
    lastSeenAt := now
    isActive := true }

/-- The insert branch of the listing upsert (lines 215-233). -/
def new_listing (lid sqId : Nat) (lang grader : String) (grade : Nat)
    (now : Int) (p : CherryProduct) : CherryListing :=
  { id := lid
    searchQueryId := sqId
    productId := p.productId
    variantId := p.variantId
    title := p.title
    handle := p.handle
    productUrl := p.productUrl
    imageUrl := p.imageUrl
    priceAud := p.priceAud
    language := lang
    grader := grader
    grade := grade
    inStock := p.inStock
    isActive := true
    scrapedAt := now
    lastSeenAt := now }

/-- The listing upsert by `(product_id, variant_id)`. -/
def upsert_listing (st : ReconState) (sqId : Nat) (lang grader : String)
    (grade : Nat) (now : Int) (p : CherryProduct) : ReconState :=
  match st.listings.find? (listing_key_match p) with
  | some _ =>
    { st with
        listings := updateFirst (listing_key_match p)
          (refresh_listing sqId lang grader grade now p) st.listings }
  | none =>
    { st with
        listings := st.listings ++
          [new_listing st.nextListingId sqId lang grader grade now p]
        nextListingId := st.nextListingId + 1 }

/-- The per-product body of the page loop (lines 157-234): stock gate, grading
detection, language classification, identity derivation, query
lookup-or-create, and the listing upsert. -/
def process_product (rin : Bool) (now : Int) (st : ReconState)
    (p : CherryProduct) : ReconState :=
  if rin && !p.inStock then st
  else
    match detect_grading p.title p.tags with
    | none => st
    | some (grader, grade) =>
      if grader == "" || grade != 10 then st
      else
        let lang := if is_jp_title p.title then "JP" else "EN"
        let qc := derive_query_from_title p.title
        if qc.1 == "" then st
        else
          let r := ensure_query st qc.1 qc.2 lang
          upsert_listing r.1 r.2 lang grader grade now p

/-- One fetched page of products, processed in order (with a commit at page
end that the embedding, which has no failure mid-page, does not need to
represent). -/
def process_page (rin : Bool) (now : Int) (st : ReconState)
    (batch : List CherryProduct) : ReconState :=
  batch.foldl (process_product rin now) st

/-- Lines 127-130: snapshot aside, mark every currently active listing
inactive before streaming pages. -/
def mark_all_inactive (st : ReconState) : ReconState :=
  { st with
      listings := st.listings.map fun l =>
        if l.isActive then { l with isActive := false } else l }

/-- One full reconciliation pass of `fetch_cherry_listings` over an already
fetched page sequence: bulk-deactivate, then upsert every observed product. -/
def reconcile (rin : Bool) (now : Int) (feed : List (List CherryProduct))
    (st : ReconState) : ReconState :=
  feed.foldl (process_page rin now) (mark_all_inactive st)

/-- Outcome of one call to the feed adapter: `fail` models a raised exception
(timeouts, 429s, transport errors alike), `ok` a parsed page. -/
inductive PageResult where
  | fail
  | ok (batch : List CherryProduct)

/-- The pagination loop of `fetch_cherry_listings` (lines 143-239); the loop in
`fetch_leo_listings` (lines 135-230) has the same shape.  `calls t` is the
outcome of the `t`-th call to the feed adapter.  On `fail` the source sleeps
and `continue`s with `page` unchanged; on an empty batch it breaks; otherwise
it processes the page, commits, and advances.  The Python loop has no
structural termination argument, so the model takes explicit fuel and returns
`none` while the loop is still running after `fuel` iterations, or the final
state and call count when the loop exits. -/
def page_loop (rin : Bool) (now : Int) (calls : Nat → PageResult)
    (maxPages : Nat) : Nat → Nat → Nat → ReconState → Option (ReconState × Nat)
  | 0, _, _, _ => none
  | fuel + 1, page, t, st =>
    if maxPages < page then some (st, t)
    else
      match calls t with
      | .fail => page_loop rin now calls maxPages fuel page (t + 1) st
      | .ok [] => some (st, t + 1)
      | .ok (p :: ps) =>
        page_loop rin now calls maxPages fuel (page + 1) (t + 1)
          (process_page rin now st (p :: ps))

/-! ## Derived notions about the reconciler, used by its theorems -/

/-- The natural key of a listing row. -/
def key_of (l : CherryListing) : Nat × Nat := (l.productId, l.variantId)

/-- The natural key of a raw product. -/
def prod_key (p : CherryProduct) : Nat × Nat := (p.productId, p.variantId)

/-- The `cherry_listings` invariant: at most one row per natural key. -/
def keys_unique (ls : List CherryListing) : Prop :=
  ls.Pairwise (fun a b => key_of a ≠ key_of b)

/-- The `search_queries` unique constraint on `(query_text, language)`. -/
def pairs_unique (qs : List SearchQuery) : Prop :=
  qs.Pairwise (fun a b => (a.queryText, a.language) ≠ (b.queryText, b.language))

/-- Whether a raw product survives every inclusion filter of the per-product
body (stock gate, grade-10 grading detection, non-empty derived identity). -/
def passes (rin : Bool) (p : CherryProduct) : Bool :=
  !(rin && !p.inStock) &&
  (match detect_grading p.title p.tags with
   | none => false
   | some (g, gr) => !(g == "" || gr != 10)) &&
  ((derive_query_from_title p.title).1 != "")

/-- The language stream the per-product body assigns. -/
def lang_of (p : CherryProduct) : String :=
  if is_jp_title p.title then "JP" else "EN"

/-- The grader the per-product body detects (meaningful when `passes`). -/
def grader_of (p : CherryProduct) : String :=
  ((detect_grading p.title p.tags).getD ("", 0)).1

/-- The grade the per-product body detects (meaningful when `passes`). -/
def grade_of (p : CherryProduct) : Nat :=
  ((detect_grading p.title p.tags).getD ("", 0)).2

/-- The derived `query_text` of a product. -/
def qt_of (p : CherryProduct) : String := (derive_query_from_title p.title).1

/-- The derived `card_name` of a product. -/
def cn_of (p : CherryProduct) : String := (derive_query_from_title p.title).2

/-- The query id the `(query_text, language)` lookup resolves to in a given
query table (0 when absent; only used where presence is known). -/
def resolve_qid (qs : List SearchQuery) (p : CherryProduct) : Nat :=
  match qs.find? (fun q0 => q0.queryText == qt_of p && q0.language == lang_of p) with
  | some q => q.id
  | none => 0

/-- The last product of a pass that passes the filters and carries a given
natural key: the upsert that wins for that key. -/
def last_passing (rin : Bool) (prods : List CherryProduct) (k : Nat × Nat) :
    Option CherryProduct :=
  (prods.filter (fun p => passes rin p && decide (prod_key p = k))).getLast?

/-- Pointwise effect of a second reconciliation pass over `prodsDone` on the
listing table produced by a first pass: rows whose key was re-observed carry
the winning product's fields, the rest are (re)deactivated. -/
def run2_fix (rin : Bool) (n2 : Int) (qs : List SearchQuery)
    (prodsDone : List CherryProduct) (l : CherryListing) : CherryListing :=
  match last_passing rin prodsDone (key_of l) with
  | some p =>
    refresh_listing (resolve_qid qs p) (lang_of p) (grader_of p) (grade_of p) n2 p l
  | none => if l.isActive then { l with isActive := false } else l

/-- The invariant carried through a benchmark run: computations never exceed
the processed counter nor the per-run cap. -/
def BenchInv (maxQ : Nat) (st : BenchState) : Prop :=
  computations st ≤ st.processed ∧ computations st ≤ maxQ

/-- The number of listing rows carrying a given natural key. -/
def KeyCount (k : Nat × Nat) (ls : List CherryListing) : Nat :=
  (ls.filter (fun l => decide (key_of l = k))).length

/-- All rows with a given natural key carry the database id `i`. -/
def KeyIds (k : Nat × Nat) (i : Nat) (ls : List CherryListing) : Prop :=
  ∀ l, l ∈ ls → key_of l = k → l.id = i

/-- Some row with the given natural key is present and active. -/
def ActiveKey (k : Nat × Nat) (ls : List CherryListing) : Prop :=
  ∃ l, l ∈ ls ∧ key_of l = k ∧ l.isActive = true

/-- The state invariant a reconciliation pass maintains after processing the
products `done` (starting from the bulk-deactivated state): the uniqueness
constraints hold, every processed passing product has its query pair resolvable
and an active row for its key, and every active row carries exactly the fields
of the last passing occurrence of its key (so that rewriting those fields again
only moves `last_seen_at`). -/
structure ReconInv (rin : Bool) (done : List CherryProduct) (st : ReconState) :
    Prop where
  pairsU : pairs_unique st.queries
  keysU : keys_unique st.listings
  qfound : ∀ p, p ∈ done → passes rin p = true →
    ∃ q, st.queries.find?
      (fun q0 => q0.queryText == qt_of p && q0.language == lang_of p) = some q
  krow : ∀ p, p ∈ done → passes rin p = true → ActiveKey (prod_key p) st.listings
  activeChar : ∀ l, l ∈ st.listings → l.isActive = true →
    ∃ p, p ∈ done ∧ passes rin p = true ∧
      last_passing rin done (key_of l) = some p ∧
      ∀ m, refresh_listing (resolve_qid st.queries p) (lang_of p) (grader_of p)
        (grade_of p) m p l = { l with lastSeenAt := m }

/-! ## Generic list lemmas -/

theorem mem_updateFirst {α : Type} (p : α → Bool) (f : α → α) (l : List α)
    (o : α) (ho : o ∈ updateFirst p f l) : o ∈ l ∨ ∃ x, x ∈ l ∧ o = f x := by
  induction l with
  | nil => simp [updateFirst] at ho
  | cons x xs ih =>
    by_cases hp : p x
    · rw [updateFirst, if_pos hp] at ho
      rcases List.mem_cons.mp ho with h | h
      · exact Or.inr ⟨x, List.mem_cons_self x xs, h⟩
      · exact Or.inl (List.mem_cons_of_mem x h)
    · rw [updateFirst, if_neg hp] at ho
      rcases List.mem_cons.mp ho with h | h
      · exact Or.inl (h ▸ List.mem_cons_self x xs)
      · rcases ih h with h1 | ⟨y, hy, hoy⟩
        · exact Or.inl (List.mem_cons_of_mem x h1)
        · exact Or.inr ⟨y, List.mem_cons_of_mem x hy, hoy⟩

/-! ## Theorems about the Benchmark Engine -/

/-- C5: the Benchmark Engine's summary statistic is the standard median: for a
non-empty price list it is the middle element of the sorted list when the
count is odd, and the average of the two middle elements when even. -/
theorem median_dec_eq_sorted_middle (l s : List ℚ) (hne : l ≠ [])
    (hperm : s.Perm l) (hsort : s.Sorted (· ≤ ·)) :
    median_dec l =
      if l.length % 2 = 1 then s.getD (l.length / 2) 0
      else (s.getD (l.length / 2 - 1) 0 + s.getD (l.length / 2) 0) / 2 := by
  have hs : l.insertionSort (· ≤ ·) = s :=
    List.eq_of_perm_of_sorted ((List.perm_insertionSort _ l).trans hperm.symm)
      (List.sorted_insertionSort _ l) hsort
  have hlen : s.length = l.length := hperm.length_eq
  unfold median_dec
  rw [if_neg hne]
  simp only [hs, hlen]

theorem median_dec_eq_sorted_middle_witness :
    median_dec [3, 1, 2] = [(1 : ℚ), 2, 3].getD 1 0 ∧
    median_dec [4, 1, 3, 2] =
      ([(1 : ℚ), 2, 3, 4].getD 1 0 + [(1 : ℚ), 2, 3, 4].getD 2 0) / 2 := by
  constructor
  · have h := median_dec_eq_sorted_middle [3, 1, 2] [1, 2, 3]
      (by decide) (by decide) (by decide)
    simpa using h
  · have h := median_dec_eq_sorted_middle [4, 1, 3, 2] [1, 2, 3, 4]
      (by decide) (by decide) (by decide)
    simpa using h

/-- C6: for a candidate whose fetch succeeds and yields a non-empty filtered
comparable-price sample, a Benchmark row is persisted iff the median `M`
satisfies `floor ≤ M < ceiling`; a median at or above the ceiling or below the
floor is not stored and the candidate is counted as filtered. -/
theorem benchmark_scope_filter (floorP ceilingP : ℚ) (now : Int) (qid : Nat)
    (language : String) (c : Combo) (st : BenchState) (items : List CompItem)
    (prices : List ℚ)
    (hfetch : c.fetch = .ok items)
    (hprices : comparable_prices language c.grader c.grade items = prices)
    (hne : prices ≠ []) :
    (floorP ≤ median_dec prices ∧ median_dec prices < ceilingP →
      process_combo floorP ceilingP now qid language c st =
        { st with stored := st.stored + 1
                  benchmarks := st.benchmarks ++ [mk_benchmark qid c now prices] }) ∧
    (¬(floorP ≤ median_dec prices ∧ median_dec prices < ceilingP) →
      process_combo floorP ceilingP now qid language c st =
        { st with filtered := st.filtered + 1 }) := by
  constructor
  · intro hband
    simp only [process_combo, hfetch, hprices]
    rw [if_neg hne, if_neg]
    push_neg
    exact ⟨hband.2, hband.1⟩
  · intro hout
    simp only [process_combo, hfetch, hprices]
    rw [if_neg hne, if_pos]
    rcases not_and_or.mp hout with h | h
    · exact Or.inr (lt_of_not_le h)
    · exact Or.inl (le_of_not_lt h)

theorem benchmark_scope_filter_witness :
    process_combo 30 3000 7 1 "EN"
        { grader := "PSA", grade := 10, latestTs := none,
          fetch := .ok [{ title := "PSA 10 PIKACHU", priceAud := some 100 }] }
        { stored := 0, filtered := 0, errors := 0, processed := 1, benchmarks := [] } =
      { stored := 1, filtered := 0, errors := 0, processed := 1,
        benchmarks := [mk_benchmark 1
          { grader := "PSA", grade := 10, latestTs := none,
            fetch := .ok [{ title := "PSA 10 PIKACHU", priceAud := some 100 }] }
          7 [100]] } ∧
    process_combo 30 3000 7 1 "EN"
        { grader := "PSA", grade := 10, latestTs := none,
          fetch := .ok [{ title := "PSA 10 MEW", priceAud := some 5000 }] }
        { stored := 0, filtered := 0, errors := 0, processed := 1, benchmarks := [] } =
      { stored := 0, filtered := 1, errors := 0, processed := 1, benchmarks := [] } := by
  constructor
  · exact (benchmark_scope_filter 30 3000 7 1 "EN" _ _ _ [100] rfl (by decide)
      (by decide)).1 (by constructor <;> decide)
  · exact (benchmark_scope_filter 30 3000 7 1 "EN" _ _ _ [5000] rfl (by decide)
      (by decide)).2 (by decide)

theorem process_combo_computations (floorP ceilingP : ℚ) (now : Int) (qid : Nat)
    (language : String) (c : Combo) (st : BenchState) :
    computations (process_combo floorP ceilingP now qid language c st) =
      computations st + 1 ∧
    (process_combo floorP ceilingP now qid language c st).processed =
      st.processed := by
  cases hf : c.fetch with
  | rateLimited => simp [process_combo, hf, computations]; omega
  | httpError => simp [process_combo, hf, computations]; omega
  | ok items =>
    simp only [process_combo, hf]
    split
    · simp [computations]; omega
    · split
      · simp [computations]; omega
      · simp [computations]; omega

theorem run_combos_inv (maxQ : Nat) (cutoff : Int) (floorP ceilingP : ℚ)
    (now : Int) (qid : Nat) (language : String) (cs : List Combo)
    (st : BenchState) (h : BenchInv maxQ st) :
    BenchInv maxQ (run_combos maxQ cutoff floorP ceilingP now qid language cs st) := by
  induction cs generalizing st with
  | nil => exact h
  | cons c rest ih =>
    rw [run_combos]
    by_cases hfresh : is_recent c cutoff = true
    · rw [if_pos hfresh]
      exact ih st h
    · rw [if_neg hfresh]
      show BenchInv maxQ
        (if maxQ < st.processed + 1 then { st with processed := st.processed + 1 }
         else run_combos maxQ cutoff floorP ceilingP now qid language rest
           (process_combo floorP ceilingP now qid language c
             { st with processed := st.processed + 1 }))
      by_cases hgt : maxQ < st.processed + 1
      · rw [if_pos hgt]
        exact ⟨le_trans h.1 (Nat.le_succ _), h.2⟩
      · rw [if_neg hgt]
        apply ih
        have hc := process_combo_computations floorP ceilingP now qid language c
          { st with processed := st.processed + 1 }
        have h1 := h.1
        have h2 := h.2
        have hc1 := hc.1
        have hc2 := hc.2
        simp only [not_lt] at hgt
        constructor
        · rw [hc1, hc2]
          simp only [computations] at h1 ⊢
          omega
        · rw [hc1]
          simp only [computations] at h1 h2 ⊢
          omega

theorem run_queries_inv (maxQ : Nat) (cutoff : Int) (floorP ceilingP : ℚ)
    (now : Int) (qs : List QueryCand) (st : BenchState) (h : BenchInv maxQ st) :
    BenchInv maxQ (run_queries maxQ cutoff floorP ceilingP now qs st) := by
  induction qs generalizing st with
  | nil => exact h
  | cons q rest ih =>
    rw [run_queries]
    split
    · exact h
    · split
      · exact ih st h
      · exact ih _ (run_combos_inv maxQ cutoff floorP ceilingP now q.id q.language
          q.combos st h)

/-- C9: a candidate combination whose most recent benchmark with the matching
grader+grade data-source tag is newer than the configured minimum age is
skipped with no computation and no state change at all, and a full run performs
at most `maxQ` new benchmark computations in total. -/
theorem benchmark_freshness_skip_and_cap (maxQ : Nat) (cutoff : Int)
    (floorP ceilingP : ℚ) (now : Int) (qid : Nat) (language : String)
    (c : Combo) (rest : List Combo) (st : BenchState) (qs : List QueryCand)
    (hfresh : is_recent c cutoff = true) :
    run_combos maxQ cutoff floorP ceilingP now qid language (c :: rest) st =
      run_combos maxQ cutoff floorP ceilingP now qid language rest st ∧
    computations (run_queries maxQ cutoff floorP ceilingP now qs
      { stored := 0, filtered := 0, errors := 0, processed := 0, benchmarks := [] }) ≤
      maxQ := by
  constructor
  · rw [run_combos, if_pos hfresh]
  · exact (run_queries_inv maxQ cutoff floorP ceilingP now qs
      { stored := 0, filtered := 0, errors := 0, processed := 0, benchmarks := [] }
      ⟨by simp [computations], by simp [computations]⟩).2

theorem benchmark_freshness_skip_and_cap_witness :
    run_combos 8 50 30 3000 7 1 "EN"
        [{ grader := "PSA", grade := 10, latestTs := some 100,
           fetch := .ok [{ title := "PSA 10 PIKACHU", priceAud := some 100 }] }]
        { stored := 0, filtered := 0, errors := 0, processed := 0, benchmarks := [] } =
      { stored := 0, filtered := 0, errors := 0, processed := 0, benchmarks := [] } ∧
    computations (run_queries 8 50 30 3000 7
      [{ id := 1, language := "EN",
         combos := [{ grader := "PSA", grade := 10, latestTs := none,
                      fetch := .httpError }] }]
      { stored := 0, filtered := 0, errors := 0, processed := 0, benchmarks := [] }) ≤ 8 := by
  have h := benchmark_freshness_skip_and_cap 8 50 30 3000 7 1 "EN"
    { grader := "PSA", grade := 10, latestTs := some 100,
      fetch := .ok [{ title := "PSA 10 PIKACHU", priceAud := some 100 }] }
    [] { stored := 0, filtered := 0, errors := 0, processed := 0, benchmarks := [] }
    [{ id := 1, language := "EN",
       combos := [{ grader := "PSA", grade := 10, latestTs := none,
                    fetch := .httpError }] }]
    (by decide)
  exact ⟨h.1, h.2⟩

/-- C3 counterexample: a rate-limited response on the first candidate does not
stop the run; the second candidate is still processed and stored, with only an
error counted for the first. -/
theorem rate_limit_stops_run_cex :
    (run_queries 8 0 30 3000 7
      [{ id := 1, language := "EN",
         combos := [{ grader := "PSA", grade := 10, latestTs := none,
                      fetch := .rateLimited }] },
       { id := 2, language := "EN",
         combos := [{ grader := "PSA", grade := 10, latestTs := none,
                      fetch := .ok [{ title := "PSA 10 PIKACHU", priceAud := some 100 }] }] }]
      { stored := 0, filtered := 0, errors := 0, processed := 0, benchmarks := [] }).errors = 1 ∧
    (run_queries 8 0 30 3000 7
      [{ id := 1, language := "EN",
         combos := [{ grader := "PSA", grade := 10, latestTs := none,
                      fetch := .rateLimited }] },
       { id := 2, language := "EN",
         combos := [{ grader := "PSA", grade := 10, latestTs := none,
                      fetch := .ok [{ title := "PSA 10 PIKACHU", priceAud := some 100 }] }] }]
      { stored := 0, filtered := 0, errors := 0, processed := 0, benchmarks := [] }).stored = 1 := by
  constructor <;> decide

/-- C3 (amended): a rate-limit response while computing the benchmark for one
candidate is caught and counted as an error for that candidate, and the run
continues with the remaining candidates unchanged; no early stop occurs. -/
theorem rate_limit_counted_and_continues (maxQ : Nat) (cutoff : Int)
    (floorP ceilingP : ℚ) (now : Int) (qid : Nat) (language : String)
    (c : Combo) (rest : List Combo) (st : BenchState)
    (hrl : c.fetch = .rateLimited)
    (hnotfresh : is_recent c cutoff = false)
    (hbudget : st.processed + 1 ≤ maxQ) :
    run_combos maxQ cutoff floorP ceilingP now qid language (c :: rest) st =
      run_combos maxQ cutoff floorP ceilingP now qid language rest
        { st with processed := st.processed + 1, errors := st.errors + 1 } := by
  rw [run_combos, if_neg (by simp [hnotfresh]), if_neg (by simpa using hbudget)]
  congr 1
  simp [process_combo, hrl]

theorem rate_limit_counted_and_continues_witness :
    run_combos 8 0 30 3000 7 1 "EN"
        [{ grader := "PSA", grade := 10, latestTs := none, fetch := .rateLimited }]
        { stored := 0, filtered := 0, errors := 0, processed := 0, benchmarks := [] } =
      { stored := 0, filtered := 0, errors := 1, processed := 1, benchmarks := [] } := by
  have h := rate_limit_counted_and_continues 8 0 30 3000 7 1 "EN"
    { grader := "PSA", grade := 10, latestTs := none, fetch := .rateLimited }
    [] { stored := 0, filtered := 0, errors := 0, processed := 0, benchmarks := [] }
    rfl (by decide) (by decide)
  simpa [run_combos] using h

/-! ## Theorems about the Opportunity Scorer -/

/-- C1: every opportunity row stored or updated by `_create_or_update` carries
`discount_percentage = (market - store) / market * 100` and
`potential_profit = market - store` exactly (hence also after rounding to the
persisted two-decimal precision). -/
theorem opportunity_discount_profit_invariant (q : SearchQuery)
    (listing : CherryListing) (m s : ℚ) (now : Int)
    (opps : List CherryOpportunity) (hm : 0 < m) :
    (∀ o, o ∈ create_or_update q listing m s now opps →
      o ∈ opps ∨
        (o.discountPercentage = (m - s) / m * 100 ∧ o.potentialProfit = m - s)) ∧
    (∀ o, (refresh_opportunity q listing m s now o).discountPercentage =
        (m - s) / m * 100 ∧
      (refresh_opportunity q listing m s now o).potentialProfit = m - s) ∧
    (new_opportunity q listing m s now).discountPercentage = (m - s) / m * 100 ∧
    (new_opportunity q listing m s now).potentialProfit = m - s := by
  refine ⟨?_, fun o => ⟨rfl, rfl⟩, rfl, rfl⟩
  intro o ho
  unfold create_or_update at ho
  split at ho
  · rcases mem_updateFirst _ _ _ _ ho with h | ⟨x, hx, hox⟩
    · exact Or.inl h
    · exact Or.inr ⟨by rw [hox]; rfl, by rw [hox]; rfl⟩
  · rcases List.mem_append.mp ho with h | h
    · exact Or.inl h
    · rcases List.mem_singleton.mp h with h
      exact Or.inr ⟨by rw [h]; rfl, by rw [h]; rfl⟩

theorem opportunity_discount_profit_invariant_witness :
    (new_opportunity
        { id := 1, queryText := "pikachu", cardName := "Pikachu", language := "EN",
          isActive := true }
        { id := 5, searchQueryId := 1, productId := 11, variantId := 12,
          title := "PSA 10 Pikachu", handle := "pika", productUrl := "u",
          imageUrl := "i", priceAud := 100, language := "EN", grader := "PSA",
          grade := 10, inStock := true, isActive := true, scrapedAt := 0,
          lastSeenAt := 0 }
        150 100 3).discountPercentage = (150 - 100) / 150 * 100 := by
  exact (opportunity_discount_profit_invariant _ _ 150 100 3 [] (by norm_num)).2.2.1

/-- C10: on repeat detection `_create_or_update` refreshes only the display,
price, discount, profit, stock and last-verified fields of the existing row;
its `discovered_at`, `cherry_listing_id`, `search_query_id` and `is_active`
are left unchanged. -/
theorem opportunity_update_frame (q : SearchQuery) (listing : CherryListing)
    (m s : ℚ) (now : Int) (o : CherryOpportunity) :
    ((refresh_opportunity q listing m s now o).discoveredAt = o.discoveredAt ∧
     (refresh_opportunity q listing m s now o).cherryListingId = o.cherryListingId ∧
     (refresh_opportunity q listing m s now o).searchQueryId = o.searchQueryId ∧
     (refresh_opportunity q listing m s now o).isActive = o.isActive) ∧
    ((refresh_opportunity q listing m s now o).cardName = q.cardName ∧
     (refresh_opportunity q listing m s now o).productTitle = listing.title ∧
     (refresh_opportunity q listing m s now o).storePrice = s ∧
     (refresh_opportunity q listing m s now o).marketPrice = m ∧
     (refresh_opportunity q listing m s now o).discountPercentage = (m - s) / m * 100 ∧
     (refresh_opportunity q listing m s now o).potentialProfit = m - s ∧
     (refresh_opportunity q listing m s now o).productUrl = listing.productUrl ∧
     (refresh_opportunity q listing m s now o).imageUrl = listing.imageUrl ∧
     (refresh_opportunity q listing m s now o).inStock = listing.inStock ∧
     (refresh_opportunity q listing m s now o).lastVerifiedAt = now) :=
  ⟨⟨rfl, rfl, rfl, rfl⟩, rfl, rfl, rfl, rfl, rfl, rfl, rfl, rfl, rfl, rfl⟩

theorem qfloor_eq_floor (q : ℚ) : qfloor q = ⌊q⌋ := by
  rw [qfloor, Int.fdiv_eq_ediv _ (by positivity), Rat.floor_def]

theorem quantize2_eval_lt (q : ℚ) (z : ℤ) (h1 : (z : ℚ) ≤ q * 100)
    (h2 : q * 100 - z < 1/2) : quantize2 q = z / 100 := by
  have hf : qfloor (q * 100) = z := by
    rw [qfloor_eq_floor, Int.floor_eq_iff]
    · exact ⟨h1, by linarith⟩
  simp only [quantize2, round_half_even, hf]
  rw [if_pos h2]

/-- C8: for a listing that passes the stock gate and has a fresh matching
benchmark and an existing query row, the scorer upserts an opportunity iff
`storePrice < marketPrice × threshold`; the upsert updates the existing active
row in place when one exists, and otherwise appends a new row whose
`discovered_at` is the current time. -/
theorem scorer_threshold_upsert (requireInStock : Bool) (threshold : ℚ)
    (cutoffBench : Int) (benchmarks : List SoldBenchmark)
    (queries : List SearchQuery) (now : Int) (opps : List CherryOpportunity)
    (listing : CherryListing) (latest : SoldBenchmark) (q : SearchQuery)
    (hstock : (requireInStock && !listing.inStock) = false)
    (hbench : latest_benchmark benchmarks listing.searchQueryId
        (data_source_for listing.grader listing.grade) cutoffBench = some latest)
    (hq : queries.find? (fun q0 => q0.id == listing.searchQueryId) = some q) :
    score_listing requireInStock threshold cutoffBench benchmarks queries now opps listing =
      (if listing.priceAud < latest.marketPrice * threshold then
        create_or_update q listing latest.marketPrice listing.priceAud now opps
      else opps) ∧
    (opps.find? (opp_for_listing listing.id) = none →
      create_or_update q listing latest.marketPrice listing.priceAud now opps =
        opps ++ [new_opportunity q listing latest.marketPrice listing.priceAud now] ∧
      (new_opportunity q listing latest.marketPrice listing.priceAud now).discoveredAt =
        now) ∧
    (∀ o0, opps.find? (opp_for_listing listing.id) = some o0 →
      create_or_update q listing latest.marketPrice listing.priceAud now opps =
        updateFirst (opp_for_listing listing.id)
          (refresh_opportunity q listing latest.marketPrice listing.priceAud now)
          opps) := by
  refine ⟨?_, ?_, ?_⟩
  · simp only [score_listing, hstock, Bool.false_eq_true, if_false, hbench, hq]
  · intro h
    rw [create_or_update, h]
    exact ⟨rfl, rfl⟩
  · intro o0 h
    rw [create_or_update, h]

theorem scorer_threshold_upsert_witness :
    score_listing false (85/100) 0
        [{ searchQueryId := 1, marketPrice := 150,
           dataSource := data_source_for "PSA" 10, sampleSize := 3,
           minPrice := 90, maxPrice := 200, calculatedAt := 50 }]
        [{ id := 1, queryText := "pikachu", cardName := "Pikachu",
           language := "EN", isActive := true }]
        60 []
        { id := 5, searchQueryId := 1, productId := 11, variantId := 12,
          title := "PSA 10 Pikachu", handle := "pika", productUrl := "u",
          imageUrl := "i", priceAud := 100, language := "EN", grader := "PSA",
          grade := 10, inStock := true, isActive := true, scrapedAt := 0,
          lastSeenAt := 10 } =
      [new_opportunity
        { id := 1, queryText := "pikachu", cardName := "Pikachu",
          language := "EN", isActive := true }
        { id := 5, searchQueryId := 1, productId := 11, variantId := 12,
          title := "PSA 10 Pikachu", handle := "pika", productUrl := "u",
          imageUrl := "i", priceAud := 100, language := "EN", grader := "PSA",
          grade := 10, inStock := true, isActive := true, scrapedAt := 0,
          lastSeenAt := 10 }
        150 100 60] ∧
    (new_opportunity
        { id := 1, queryText := "pikachu", cardName := "Pikachu",
          language := "EN", isActive := true }
        { id := 5, searchQueryId := 1, productId := 11, variantId := 12,
          title := "PSA 10 Pikachu", handle := "pika", productUrl := "u",
          imageUrl := "i", priceAud := 100, language := "EN", grader := "PSA",
          grade := 10, inStock := true, isActive := true, scrapedAt := 0,
          lastSeenAt := 10 }
        150 100 60).discountPercentage = 100/3 ∧
    quantize2 (100/3) = 3333/100 ∧
    (new_opportunity
        { id := 1, queryText := "pikachu", cardName := "Pikachu",
          language := "EN", isActive := true }
        { id := 5, searchQueryId := 1, productId := 11, variantId := 12,
          title := "PSA 10 Pikachu", handle := "pika", productUrl := "u",
          imageUrl := "i", priceAud := 100, language := "EN", grader := "PSA",
          grade := 10, inStock := true, isActive := true, scrapedAt := 0,
          lastSeenAt := 10 }
        150 100 60).potentialProfit = 50 := by
  have h := scorer_threshold_upsert false (85/100) 0
    [{ searchQueryId := 1, marketPrice := 150,
       dataSource := data_source_for "PSA" 10, sampleSize := 3,
       minPrice := 90, maxPrice := 200, calculatedAt := 50 }]
    [{ id := 1, queryText := "pikachu", cardName := "Pikachu",
       language := "EN", isActive := true }]
    60 []
    { id := 5, searchQueryId := 1, productId := 11, variantId := 12,
      title := "PSA 10 Pikachu", handle := "pika", productUrl := "u",
      imageUrl := "i", priceAud := 100, language := "EN", grader := "PSA",
      grade := 10, inStock := true, isActive := true, scrapedAt := 0,
      lastSeenAt := 10 }
    { searchQueryId := 1, marketPrice := 150,
      dataSource := data_source_for "PSA" 10, sampleSize := 3,
      minPrice := 90, maxPrice := 200, calculatedAt := 50 }
    { id := 1, queryText := "pikachu", cardName := "Pikachu",
      language := "EN", isActive := true }
    rfl (by decide) (by decide)
  refine ⟨?_, ?_, ?_, ?_⟩
  · rw [h.1, if_pos (by norm_num), (h.2.1 rfl).1]
    rfl
  · simp only [new_opportunity]
    norm_num
  · exact quantize2_eval_lt (100/3) 3333 (by norm_num) (by norm_num)
  · simp only [new_opportunity]
    norm_num

/-! ## Theorems about the Listing Reconciler page loop -/

/-- C4 evaluation at the failing input: with a feed adapter that raises on
every call, the pagination loop never finishes regardless of the fuel it is
given — the except branch of the source neither advances the page nor counts
attempts, so the cycle retries the same page forever instead of giving up and
moving on. -/
theorem failing_page_loops_forever (rin : Bool) (now : Int)
    (calls : Nat → PageResult) (maxPages : Nat)
    (hcalls : ∀ t, calls t = .fail) :
    ∀ fuel page t st, page ≤ maxPages →
      page_loop rin now calls maxPages fuel page t st = none := by
  intro fuel
  induction fuel with
  | zero => intro page t st hp; rfl
  | succ n ih =>
    intro page t st hp
    rw [page_loop, if_neg (Nat.not_lt.mpr hp)]
    rw [hcalls t]
    exact ih page (t + 1) st hp

theorem failing_page_loops_forever_witness :
    page_loop true 0 (fun _ => .fail) 30 1000 1 0
      { queries := [], nextQueryId := 1, listings := [], nextListingId := 1 } =
      none :=
  failing_page_loops_forever true 0 (fun _ => .fail) 30 (fun _ => rfl)
    1000 1 0 _ (by decide)

/-! ## List plumbing for the reconciliation proofs -/

theorem find?_append_some {α : Type} (pr : α → Bool) (l1 l2 : List α) (x : α)
    (h : l1.find? pr = some x) : (l1 ++ l2).find? pr = some x := by
  induction l1 with
  | nil => simp at h
  | cons a l ih =>
    by_cases ha : pr a = true
    · rw [List.find?_cons_of_pos _ ha] at h
      rw [List.cons_append, List.find?_cons_of_pos _ ha]
      exact h
    · rw [List.find?_cons_of_neg _ ha] at h
      rw [List.cons_append, List.find?_cons_of_neg _ ha]
      exact ih h

theorem find?_append_none {α : Type} (pr : α → Bool) (l1 l2 : List α)
    (h : l1.find? pr = none) : (l1 ++ l2).find? pr = l2.find? pr := by
  induction l1 with
  | nil => simp
  | cons a l ih =>
    by_cases ha : pr a = true
    · rw [List.find?_cons_of_pos _ ha] at h
      simp at h
    · rw [List.find?_cons_of_neg _ ha] at h
      rw [List.cons_append, List.find?_cons_of_neg _ ha]
      exact ih h

theorem updateFirst_decomp {α : Type} (pr : α → Bool) (f : α → α) (l : List α)
    (x : α) (h : l.find? pr = some x) :
    ∃ l1 l2, l = l1 ++ x :: l2 ∧ (∀ y ∈ l1, pr y = false) ∧
      updateFirst pr f l = l1 ++ f x :: l2 := by
  induction l with
  | nil => simp at h
  | cons a l ih =>
    by_cases ha : pr a = true
    · rw [List.find?_cons_of_pos _ ha] at h
      obtain rfl : a = x := by injection h
      exact ⟨[], l, rfl, by simp, by rw [updateFirst, if_pos ha]; rfl⟩
    · rw [List.find?_cons_of_neg _ ha] at h
      obtain ⟨l1, l2, hl, hl1, hu⟩ := ih h
      refine ⟨a :: l1, l2, by rw [hl]; rfl, ?_, ?_⟩
      · intro y hy
        rcases List.mem_cons.mp hy with rfl | hy2
        · exact Bool.not_eq_true _ ▸ eq_false_of_ne_true ha
        · exact hl1 y hy2
      · rw [updateFirst, if_neg ha, hu]
        rfl

theorem mem_updateFirst_of_neg {α : Type} (pr : α → Bool) (f : α → α)
    (l : List α) (x : α) (hx : x ∈ l) (hpx : pr x = false) :
    x ∈ updateFirst pr f l := by
  induction l with
  | nil => simp at hx
  | cons a l ih =>
    by_cases ha : pr a = true
    · rw [updateFirst, if_pos ha]
      rcases List.mem_cons.mp hx with rfl | hx2
      · rw [hpx] at ha; simp at ha
      · exact List.mem_cons_of_mem _ hx2
    · rw [updateFirst, if_neg ha]
      rcases List.mem_cons.mp hx with rfl | hx2
      · exact List.mem_cons_self _ _
      · exact List.mem_cons_of_mem _ (ih hx2)

theorem length_updateFirst {α : Type} (pr : α → Bool) (f : α → α) (l : List α) :
    (updateFirst pr f l).length = l.length := by
  induction l with
  | nil => rfl
  | cons a l ih =>
    rw [updateFirst]
    by_cases ha : pr a = true
    · rw [if_pos ha]; simp
    · rw [if_neg ha]; simp [ih]

/-! ## Facts about the filter chain and classification of one product -/

theorem listing_key_match_iff (p : CherryProduct) (l : CherryListing) :
    listing_key_match p l = true ↔ key_of l = prod_key p := by
  simp [listing_key_match, key_of, prod_key, Prod.ext_iff]

theorem passes_parts (rin : Bool) (p : CherryProduct)
    (h : passes rin p = true) :
    (rin && !p.inStock) = false ∧
    detect_grading p.title p.tags = some (grader_of p, grade_of p) ∧
    (grader_of p == "" || grade_of p != 10) = false ∧
    (qt_of p == "") = false := by
  unfold passes at h
  cases hd : detect_grading p.title p.tags with
  | none => rw [hd] at h; simp at h
  | some gg =>
    obtain ⟨g, gr⟩ := gg
    have hg : grader_of p = g := by simp [grader_of, hd]
    have hgr : grade_of p = gr := by simp [grade_of, hd]
    rw [hd] at h
    simp only [Bool.and_eq_true, Bool.not_eq_true'] at h
    obtain ⟨⟨ha, hb⟩, hc⟩ := h
    refine ⟨ha, by rw [hg, hgr], by rw [hg, hgr]; exact hb, ?_⟩
    have : ¬(derive_query_from_title p.title).1 = "" := by
      simpa [bne_iff_ne] using hc
    simp [qt_of, this]

theorem process_product_skip (rin : Bool) (now : Int) (st : ReconState)
    (p : CherryProduct) (h : passes rin p = false) :
    process_product rin now st p = st := by
  unfold process_product
  unfold passes at h
  by_cases h1 : (rin && !p.inStock) = true
  · rw [if_pos h1]
  · rw [if_neg h1]
    cases hd : detect_grading p.title p.tags with
    | none => rfl
    | some gg =>
      obtain ⟨g, gr⟩ := gg
      rw [hd] at h
      dsimp only
      by_cases h2 : (g == "" || gr != 10) = true
      · rw [if_pos h2]
      · rw [if_neg h2]
        by_cases h3 : ((derive_query_from_title p.title).1 == "") = true
        · rw [if_pos h3]
        · exfalso
          rw [Bool.not_eq_true] at h1 h2 h3
          dsimp only at h
          rw [h1, h2] at h
          simp [bne, h3] at h

theorem process_product_passing (rin : Bool) (now : Int) (st : ReconState)
    (p : CherryProduct) (h : passes rin p = true) :
    process_product rin now st p =
      upsert_listing (ensure_query st (qt_of p) (cn_of p) (lang_of p)).1
        (ensure_query st (qt_of p) (cn_of p) (lang_of p)).2
        (lang_of p) (grader_of p) (grade_of p) now p := by
  obtain ⟨h1, hd, h2, h3⟩ := passes_parts rin p h
  unfold process_product
  rw [if_neg (by rw [h1]; simp), hd]
  dsimp only
  rw [if_neg (by rw [h2]; simp)]
  have h3' : ((derive_query_from_title p.title).1 == "") = false := by
    simpa [qt_of] using h3
  rw [if_neg (by rw [h3']; simp)]
  rfl

/-! ## Step lemmas for `ensure_query` and `upsert_listing` -/

theorem ensure_query_found (st : ReconState) (qt cn lang : String)
    (q : SearchQuery)
    (h : st.queries.find? (fun q0 => q0.queryText == qt && q0.language == lang) =
      some q) :
    ensure_query st qt cn lang = (st, q.id) := by
  unfold ensure_query
  rw [h]

theorem ensure_query_state (st : ReconState) (qt cn lang : String) :
    ∃ qs', (ensure_query st qt cn lang).1.queries = st.queries ++ qs' ∧
      (ensure_query st qt cn lang).1.listings = st.listings ∧
      (ensure_query st qt cn lang).1.nextListingId = st.nextListingId := by
  unfold ensure_query
  cases h : st.queries.find? (fun q0 => q0.queryText == qt && q0.language == lang) with
  | some q => exact ⟨[], by simp, rfl, rfl⟩
  | none => exact ⟨_, rfl, rfl, rfl⟩

theorem ensure_query_not_found (st : ReconState) (qt cn lang : String)
    (h : st.queries.find? (fun q0 => q0.queryText == qt && q0.language == lang) =
      none) :
    ensure_query st qt cn lang =
      ({ st with
          queries := st.queries ++ [⟨st.nextQueryId, qt, cn, lang, true⟩]
          nextQueryId := st.nextQueryId + 1 }, st.nextQueryId) := by
  unfold ensure_query
  rw [h]

theorem ensure_query_resolves (st : ReconState) (qt cn lang : String) :
    ∃ q, (ensure_query st qt cn lang).1.queries.find?
        (fun q0 => q0.queryText == qt && q0.language == lang) = some q ∧
      q.id = (ensure_query st qt cn lang).2 := by
  cases h : st.queries.find? (fun q0 => q0.queryText == qt && q0.language == lang) with
  | some q =>
    rw [ensure_query_found st qt cn lang q h]
    exact ⟨q, h, rfl⟩
  | none =>
    rw [ensure_query_not_found st qt cn lang h]
    refine ⟨⟨st.nextQueryId, qt, cn, lang, true⟩, ?_, rfl⟩
    dsimp only
    rw [find?_append_none _ _ _ h, List.find?_cons_of_pos _ (by simp)]

theorem ensure_query_pairs (st : ReconState) (qt cn lang : String)
    (hpu : pairs_unique st.queries) :
    pairs_unique (ensure_query st qt cn lang).1.queries := by
  unfold ensure_query
  cases h : st.queries.find? (fun q0 => q0.queryText == qt && q0.language == lang) with
  | some q => exact hpu
  | none =>
    rw [pairs_unique, List.pairwise_append]
    refine ⟨hpu, List.pairwise_singleton _ _, ?_⟩
    intro a ha b hb
    have hb1 : b = ⟨st.nextQueryId, qt, cn, lang, true⟩ := List.mem_singleton.mp hb
    have := List.find?_eq_none.mp h a ha
    simp only [Bool.and_eq_true, beq_iff_eq, not_and] at this
    rw [hb1]
    intro hcontra
    have h1 : a.queryText = qt := congrArg Prod.fst hcontra
    have h2 : a.language = lang := congrArg Prod.snd hcontra
    exact this h1 h2

theorem upsert_listing_queries (st : ReconState) (sqId : Nat)
    (lang grader : String) (grade : Nat) (now : Int) (p : CherryProduct) :
    (upsert_listing st sqId lang grader grade now p).queries = st.queries ∧
    (upsert_listing st sqId lang grader grade now p).nextQueryId =
      st.nextQueryId := by
  unfold upsert_listing
  cases h : st.listings.find? (listing_key_match p) <;> exact ⟨rfl, rfl⟩

theorem upsert_listing_update (st : ReconState) (sqId : Nat)
    (lang grader : String) (grade : Nat) (now : Int) (p : CherryProduct)
    (x : CherryListing) (h : st.listings.find? (listing_key_match p) = some x) :
    upsert_listing st sqId lang grader grade now p =
      { st with
          listings := updateFirst (listing_key_match p)
            (refresh_listing sqId lang grader grade now p) st.listings } := by
  unfold upsert_listing
  rw [h]

theorem upsert_listing_insert (st : ReconState) (sqId : Nat)
    (lang grader : String) (grade : Nat) (now : Int) (p : CherryProduct)
    (h : st.listings.find? (listing_key_match p) = none) :
    upsert_listing st sqId lang grader grade now p =
      { st with
          listings := st.listings ++
            [new_listing st.nextListingId sqId lang grader grade now p]
          nextListingId := st.nextListingId + 1 } := by
  unfold upsert_listing
  rw [h]

/-! ## Field-preservation facts -/

theorem key_of_refresh (sqId : Nat) (lang grader : String) (grade : Nat)
    (now : Int) (p : CherryProduct) (l : CherryListing) :
    key_of (refresh_listing sqId lang grader grade now p l) = key_of l := rfl

theorem refresh_base_fields (sqId : Nat) (lang grader : String) (grade : Nat)
    (now : Int) (p : CherryProduct) (l : CherryListing) :
    (refresh_listing sqId lang grader grade now p l).id = l.id ∧
    (refresh_listing sqId lang grader grade now p l).scrapedAt = l.scrapedAt ∧
    (refresh_listing sqId lang grader grade now p l).productId = l.productId ∧
    (refresh_listing sqId lang grader grade now p l).variantId = l.variantId :=
  ⟨rfl, rfl, rfl, rfl⟩

theorem refresh_eq_self_update (sq : Nat) (lang grader : String) (grade : Nat)
    (m : Int) (p : CherryProduct) (l : CherryListing)
    (h1 : l.searchQueryId = sq) (h2 : l.title = p.title)
    (h3 : l.handle = p.handle) (h4 : l.productUrl = p.productUrl)
    (h5 : l.imageUrl = p.imageUrl) (h6 : l.priceAud = p.priceAud)
    (h7 : l.inStock = p.inStock) (h8 : l.language = lang)
    (h9 : l.grader = grader) (h10 : l.grade = grade)
    (h11 : l.isActive = true) :
    refresh_listing sq lang grader grade m p l = { l with lastSeenAt := m } := by
  cases l
  simp_all [refresh_listing]

theorem refresh_listing_absorb (sqId : Nat) (lang grader : String) (grade : Nat)
    (m : Int) (p : CherryProduct) (a b : CherryListing)
    (hid : a.id = b.id) (hscr : a.scrapedAt = b.scrapedAt)
    (hpid : a.productId = b.productId) (hvid : a.variantId = b.variantId) :
    refresh_listing sqId lang grader grade m p a =
      refresh_listing sqId lang grader grade m p b := by
  cases a
  cases b
  simp_all [refresh_listing]

theorem run2_fix_base_fields (rin : Bool) (n2 : Int) (qs : List SearchQuery)
    (done : List CherryProduct) (l : CherryListing) :
    (run2_fix rin n2 qs done l).id = l.id ∧
    (run2_fix rin n2 qs done l).scrapedAt = l.scrapedAt ∧
    (run2_fix rin n2 qs done l).productId = l.productId ∧
    (run2_fix rin n2 qs done l).variantId = l.variantId := by
  unfold run2_fix
  cases last_passing rin done (key_of l) with
  | some p => exact ⟨rfl, rfl, rfl, rfl⟩
  | none =>
    by_cases h : l.isActive = true
    · rw [if_pos h]; exact ⟨rfl, rfl, rfl, rfl⟩
    · rw [if_neg h]; exact ⟨rfl, rfl, rfl, rfl⟩

theorem key_of_run2_fix (rin : Bool) (n2 : Int) (qs : List SearchQuery)
    (done : List CherryProduct) (l : CherryListing) :
    key_of (run2_fix rin n2 qs done l) = key_of l := by
  have h := run2_fix_base_fields rin n2 qs done l
  simp [key_of, h.2.2.1, h.2.2.2]

/-! ## Facts about `last_passing` -/

theorem last_passing_append_passing (rin : Bool) (done : List CherryProduct)
    (p : CherryProduct) (hp : passes rin p = true) :
    last_passing rin (done ++ [p]) (prod_key p) = some p := by
  unfold last_passing
  rw [List.filter_append]
  have : List.filter (fun p0 => passes rin p0 && decide (prod_key p0 = prod_key p)) [p] =
      [p] := by
    simp [hp]
  rw [this, List.getLast?_concat]

theorem last_passing_append_other (rin : Bool) (done : List CherryProduct)
    (p : CherryProduct) (k : Nat × Nat)
    (h : passes rin p = false ∨ prod_key p ≠ k) :
    last_passing rin (done ++ [p]) k = last_passing rin done k := by
  unfold last_passing
  rw [List.filter_append]
  have : List.filter (fun p0 => passes rin p0 && decide (prod_key p0 = k)) [p] = [] := by
    rcases h with h | h
    · simp [h]
    · simp [h]
  rw [this, List.append_nil]

theorem last_passing_mem (rin : Bool) (prods : List CherryProduct)
    (k : Nat × Nat) (p : CherryProduct)
    (h : last_passing rin prods k = some p) :
    p ∈ prods ∧ passes rin p = true ∧ prod_key p = k := by
  unfold last_passing at h
  have hmem := List.mem_of_mem_getLast? h
  have := List.mem_filter.mp hmem
  refine ⟨this.1, ?_, ?_⟩
  · have h2 := this.2
    simp only [Bool.and_eq_true, decide_eq_true_eq] at h2
    exact h2.1
  · have h2 := this.2
    simp only [Bool.and_eq_true, decide_eq_true_eq] at h2
    exact h2.2

/-! ## Natural-key bookkeeping across one reconciliation pass -/

theorem keys_unique_updateFirst (pred : CherryListing → Bool)
    (f : CherryListing → CherryListing) (hf : ∀ x, key_of (f x) = key_of x)
    (ls : List CherryListing) (h : keys_unique ls) :
    keys_unique (updateFirst pred f ls) := by
  induction ls with
  | nil => exact h
  | cons a l ih =>
    rcases List.pairwise_cons.mp h with ⟨ha, hl⟩
    rw [updateFirst]
    by_cases hp : pred a = true
    · rw [if_pos hp]
      exact List.pairwise_cons.mpr ⟨fun b hb => (hf a) ▸ ha b hb, hl⟩
    · rw [if_neg hp]
      refine List.pairwise_cons.mpr ⟨?_, ih hl⟩
      intro b hb
      rcases mem_updateFirst pred f l b hb with h1 | ⟨y, hy, rfl⟩
      · exact ha b h1
      · rw [hf y]
        exact ha y hy

theorem keycount_map (k : Nat × Nat) (f : CherryListing → CherryListing)
    (hf : ∀ x, key_of (f x) = key_of x) (ls : List CherryListing) :
    KeyCount k (ls.map f) = KeyCount k ls := by
  unfold KeyCount
  rw [List.filter_map, List.length_map]
  congr 1
  apply List.filter_congr
  intro x hx
  simp [Function.comp, hf x]

theorem keycount_updateFirst (k : Nat × Nat) (pred : CherryListing → Bool)
    (f : CherryListing → CherryListing) (hf : ∀ x, key_of (f x) = key_of x)
    (ls : List CherryListing) :
    KeyCount k (updateFirst pred f ls) = KeyCount k ls := by
  induction ls with
  | nil => rfl
  | cons a l ih =>
    rw [updateFirst]
    by_cases hp : pred a = true
    · rw [if_pos hp]
      unfold KeyCount
      rw [List.filter_cons, List.filter_cons]
      by_cases hk : key_of a = k
      · rw [show decide (key_of (f a) = k) = true by simp [hf a, hk],
          show decide (key_of a = k) = true by simp [hk]]
        simp
      · rw [show decide (key_of (f a) = k) = false by simp [hf a, hk],
          show decide (key_of a = k) = false by simp [hk]]
        simp
    · rw [if_neg hp]
      unfold KeyCount at ih ⊢
      rw [List.filter_cons, List.filter_cons]
      by_cases hk : key_of a = k
      · rw [show decide (key_of a = k) = true by simp [hk]]
        simpa using ih
      · rw [show decide (key_of a = k) = false by simp [hk]]
        exact ih

theorem keycount_zero_of_find_none (p : CherryProduct) (ls : List CherryListing)
    (h : ls.find? (listing_key_match p) = none) : KeyCount (prod_key p) ls = 0 := by
  unfold KeyCount
  rw [List.length_eq_zero]
  rw [List.filter_eq_nil_iff]
  intro l hl
  have := List.find?_eq_none.mp h l hl
  simp only [decide_eq_true_eq]
  intro hk
  exact this ((listing_key_match_iff p l).mpr hk)

theorem keycount_pos_mem (k : Nat × Nat) (ls : List CherryListing)
    (r : CherryListing) (hr : r ∈ ls) (hk : key_of r = k) : KeyCount k ls ≠ 0 := by
  unfold KeyCount
  intro hzero
  rw [List.length_eq_zero, List.filter_eq_nil_iff] at hzero
  exact hzero r hr (by simp [hk])

theorem process_product_keystate (rin : Bool) (now : Int) (st : ReconState)
    (p : CherryProduct) (k : Nat × Nat) (i : Nat)
    (hc : KeyCount k st.listings = 1) (hi : KeyIds k i st.listings) :
    KeyCount k (process_product rin now st p).listings = 1 ∧
    KeyIds k i (process_product rin now st p).listings := by
  by_cases hp : passes rin p = true
  · rw [process_product_passing rin now st p hp]
    obtain ⟨qs', hq, hlst, hnli⟩ := ensure_query_state st (qt_of p) (cn_of p) (lang_of p)
    set st1 := (ensure_query st (qt_of p) (cn_of p) (lang_of p)).1 with hst1
    set qid := (ensure_query st (qt_of p) (cn_of p) (lang_of p)).2 with hqid
    cases hfind : st1.listings.find? (listing_key_match p) with
    | some x =>
      rw [upsert_listing_update st1 qid (lang_of p) (grader_of p) (grade_of p) now p x hfind]
      constructor
      · show KeyCount k (updateFirst _ _ st1.listings) = 1
        rw [keycount_updateFirst k _ _ (fun y => key_of_refresh _ _ _ _ _ _ y), hlst]
        exact hc
      · intro l hl hkl
        rcases mem_updateFirst _ _ _ _ hl with h1 | ⟨y, hy, rfl⟩
        · exact hi l (hlst ▸ h1) hkl
        · rw [(refresh_base_fields qid (lang_of p) (grader_of p) (grade_of p) now p y).1]
          exact hi y (hlst ▸ hy) ((key_of_refresh _ _ _ _ _ _ y) ▸ hkl)
    | none =>
      rw [upsert_listing_insert st1 qid (lang_of p) (grader_of p) (grade_of p) now p hfind]
      have hkne : prod_key p ≠ k := by
        intro hkk
        have h0 := keycount_zero_of_find_none p st1.listings hfind
        rw [hlst, hkk] at h0
        omega
      constructor
      · show KeyCount k (st1.listings ++ [_]) = 1
        unfold KeyCount
        rw [List.filter_append]
        have : List.filter (fun l => decide (key_of l = k))
            [new_listing st1.nextListingId qid (lang_of p) (grader_of p) (grade_of p) now p] =
            [] := by
          simp only [List.filter_eq_nil_iff]
          intro l hl
          rw [List.mem_singleton.mp hl]
          simpa [key_of, new_listing, prod_key] using
            (by simpa [prod_key] using hkne : ¬(p.productId, p.variantId) = k)
        rw [this, List.append_nil, hlst]
        exact hc
      · intro l hl hkl
        rcases List.mem_append.mp hl with h1 | h1
        · exact hi l (hlst ▸ h1) hkl
        · exfalso
          rw [List.mem_singleton.mp h1] at hkl
          exact hkne (by simpa [key_of, new_listing, prod_key] using hkl)
  · rw [process_product_skip rin now st p (by simpa using hp)]
    exact ⟨hc, hi⟩

theorem process_product_establishes_active (rin : Bool) (now : Int)
    (st : ReconState) (p : CherryProduct) (hp : passes rin p = true) :
    ActiveKey (prod_key p) (process_product rin now st p).listings := by
  rw [process_product_passing rin now st p hp]
  obtain ⟨qs', hq, hlst, hnli⟩ := ensure_query_state st (qt_of p) (cn_of p) (lang_of p)
  set st1 := (ensure_query st (qt_of p) (cn_of p) (lang_of p)).1 with hst1
  set qid := (ensure_query st (qt_of p) (cn_of p) (lang_of p)).2 with hqid
  cases hfind : st1.listings.find? (listing_key_match p) with
  | some x =>
    rw [upsert_listing_update st1 qid (lang_of p) (grader_of p) (grade_of p) now p x hfind]
    obtain ⟨l1, l2, hdec, hl1, hupd⟩ := updateFirst_decomp _ _ _ x hfind
    refine ⟨refresh_listing qid (lang_of p) (grader_of p) (grade_of p) now p x, ?_, ?_, rfl⟩
    · show _ ∈ updateFirst _ _ st1.listings
      rw [hupd]
      exact List.mem_append.mpr (Or.inr (List.mem_cons_self _ _))
    · rw [key_of_refresh]
      exact (listing_key_match_iff p x).mp (List.find?_some hfind)
  | none =>
    rw [upsert_listing_insert st1 qid (lang_of p) (grader_of p) (grade_of p) now p hfind]
    exact ⟨new_listing st1.nextListingId qid (lang_of p) (grader_of p) (grade_of p) now p,
      List.mem_append.mpr (Or.inr (List.mem_singleton.mpr rfl)), rfl, rfl⟩

theorem process_product_preserves_active (rin : Bool) (now : Int)
    (st : ReconState) (p : CherryProduct) (k : Nat × Nat)
    (h : ActiveKey k st.listings) :
    ActiveKey k (process_product rin now st p).listings := by
  by_cases hp : passes rin p = true
  · by_cases hk : prod_key p = k
    · exact hk ▸ process_product_establishes_active rin now st p hp
    · obtain ⟨l, hl, hkl, hact⟩ := h
      rw [process_product_passing rin now st p hp]
      obtain ⟨qs', hq, hlst, hnli⟩ := ensure_query_state st (qt_of p) (cn_of p) (lang_of p)
      set st1 := (ensure_query st (qt_of p) (cn_of p) (lang_of p)).1 with hst1
      set qid := (ensure_query st (qt_of p) (cn_of p) (lang_of p)).2 with hqid
      have hlmem : l ∈ st1.listings := hlst ▸ hl
      have hpred : listing_key_match p l = false := by
        rw [Bool.eq_false_iff]
        intro hcontra
        exact hk (((listing_key_match_iff p l).mp hcontra) ▸ hkl)
      cases hfind : st1.listings.find? (listing_key_match p) with
      | some x =>
        rw [upsert_listing_update st1 qid (lang_of p) (grader_of p) (grade_of p) now p x hfind]
        exact ⟨l, mem_updateFirst_of_neg _ _ _ l hlmem hpred, hkl, hact⟩
      | none =>
        rw [upsert_listing_insert st1 qid (lang_of p) (grader_of p) (grade_of p) now p hfind]
        exact ⟨l, List.mem_append.mpr (Or.inl hlmem), hkl, hact⟩
  · rw [process_product_skip rin now st p (by simpa using hp)]
    exact h

theorem process_product_mem_other (rin : Bool) (now : Int) (st : ReconState)
    (p : CherryProduct) (l : CherryListing) (hl : l ∈ st.listings)
    (hk : passes rin p = false ∨ prod_key p ≠ key_of l) :
    l ∈ (process_product rin now st p).listings := by
  by_cases hp : passes rin p = true
  · have hkne : prod_key p ≠ key_of l := by
      rcases hk with h | h
      · rw [hp] at h; simp at h
      · exact h
    rw [process_product_passing rin now st p hp]
    obtain ⟨qs', hq, hlst, hnli⟩ := ensure_query_state st (qt_of p) (cn_of p) (lang_of p)
    set st1 := (ensure_query st (qt_of p) (cn_of p) (lang_of p)).1 with hst1
    set qid := (ensure_query st (qt_of p) (cn_of p) (lang_of p)).2 with hqid
    have hlmem : l ∈ st1.listings := hlst ▸ hl
    have hpred : listing_key_match p l = false := by
      rw [Bool.eq_false_iff]
      intro hcontra
      exact hkne (((listing_key_match_iff p l).mp hcontra)).symm
    cases hfind : st1.listings.find? (listing_key_match p) with
    | some x =>
      rw [upsert_listing_update st1 qid (lang_of p) (grader_of p) (grade_of p) now p x hfind]
      exact mem_updateFirst_of_neg _ _ _ l hlmem hpred
    | none =>
      rw [upsert_listing_insert st1 qid (lang_of p) (grader_of p) (grade_of p) now p hfind]
      exact List.mem_append.mpr (Or.inl hlmem)
  · rw [process_product_skip rin now st p (by simpa using hp)]
    exact hl

theorem foldl_keystate (rin : Bool) (now : Int) (k : Nat × Nat) (i : Nat)
    (prods : List CherryProduct) :
    ∀ st : ReconState, KeyCount k st.listings = 1 → KeyIds k i st.listings →
      KeyCount k (prods.foldl (process_product rin now) st).listings = 1 ∧
      KeyIds k i (prods.foldl (process_product rin now) st).listings := by
  induction prods with
  | nil => exact fun st hc hi => ⟨hc, hi⟩
  | cons p rest ih =>
    intro st hc hi
    rw [List.foldl_cons]
    obtain ⟨hc2, hi2⟩ := process_product_keystate rin now st p k i hc hi
    exact ih _ hc2 hi2

theorem foldl_preserves_active (rin : Bool) (now : Int) (k : Nat × Nat)
    (prods : List CherryProduct) :
    ∀ st : ReconState, ActiveKey k st.listings →
      ActiveKey k (prods.foldl (process_product rin now) st).listings := by
  induction prods with
  | nil => exact fun st h => h
  | cons p rest ih =>
    intro st h
    rw [List.foldl_cons]
    exact ih _ (process_product_preserves_active rin now st p k h)

theorem foldl_mem_other (rin : Bool) (now : Int) (l : CherryListing)
    (prods : List CherryProduct)
    (hobs : ∀ p, p ∈ prods → passes rin p = true → prod_key p ≠ key_of l) :
    ∀ st : ReconState, l ∈ st.listings →
      l ∈ (prods.foldl (process_product rin now) st).listings := by
  induction prods with
  | nil => exact fun st h => h
  | cons p rest ih =>
    intro st h
    rw [List.foldl_cons]
    refine ih (fun p2 hp2 => hobs p2 (List.mem_cons_of_mem p hp2)) _ ?_
    apply process_product_mem_other rin now st p l h
    by_cases hp : passes rin p = true
    · exact Or.inr (hobs p (List.mem_cons_self p rest) hp)
    · exact Or.inl (by simpa using hp)

theorem keycount_one_of_unique (ls : List CherryListing) (h : keys_unique ls)
    (r : CherryListing) (hr : r ∈ ls) : KeyCount (key_of r) ls = 1 := by
  induction ls with
  | nil => simp at hr
  | cons a l ih =>
    rcases List.pairwise_cons.mp h with ⟨ha, hl⟩
    unfold KeyCount
    rw [List.filter_cons]
    rcases List.mem_cons.mp hr with rfl | hr2
    · rw [show decide (key_of r = key_of r) = true by simp]
      have hnil : l.filter (fun l0 => decide (key_of l0 = key_of r)) = [] := by
        rw [List.filter_eq_nil_iff]
        intro b hb
        simp only [decide_eq_true_eq]
        exact fun hk => (ha b hb) hk.symm
      simp [hnil]
    · have hka : decide (key_of a = key_of r) = false := by
        simp only [decide_eq_false_iff_not]
        exact fun hk => ha r hr2 hk
      rw [hka]
      simpa [KeyCount] using ih hl hr2

theorem keyids_of_unique (ls : List CherryListing) (h : keys_unique ls)
    (r : CherryListing) (hr : r ∈ ls) : KeyIds (key_of r) r.id ls := by
  intro l hl hkl
  by_cases he : l = r
  · rw [he]
  · have hsym : Symmetric (fun a b : CherryListing => key_of a ≠ key_of b) :=
      fun a b hab hba => hab hba.symm
    exact absurd hkl (h.forall hsym hl hr he)

theorem mark_all_inactive_listings (st : ReconState) :
    (mark_all_inactive st).listings =
      st.listings.map (fun l => if l.isActive then { l with isActive := false } else l) :=
  rfl

theorem mark_fix_fields (l : CherryListing) :
    key_of (if l.isActive then { l with isActive := false } else l) = key_of l ∧
    (if l.isActive then ({ l with isActive := false } : CherryListing) else l).id = l.id := by
  by_cases h : l.isActive
  · rw [if_pos h]
    exact ⟨rfl, rfl⟩
  · rw [if_neg h]
    exact ⟨rfl, rfl⟩

theorem reconcile_eq_foldl (rin : Bool) (now : Int)
    (feed : List (List CherryProduct)) (st : ReconState) :
    reconcile rin now feed st =
      feed.flatten.foldl (process_product rin now) (mark_all_inactive st) := by
  rw [reconcile, List.foldl_flatten]
  rfl

/-- C2: over one full reconciliation pass, (a) an active listing whose key is
not re-observed among the products that pass the inclusion filters ends the
pass inactive with its row otherwise intact (soft delete, never a hard
delete), and (b) an inactive listing whose key is re-observed ends the pass
with its row (same database id) active again and still the only row carrying
that natural key — reactivation without a duplicate. -/
theorem reconcile_soft_delete_reactivate (rin : Bool) (now : Int)
    (feed : List (List CherryProduct)) (st : ReconState)
    (hk : keys_unique st.listings) :
    (∀ r, r ∈ st.listings → r.isActive = true →
      (∀ p, p ∈ feed.flatten → passes rin p = true → prod_key p ≠ key_of r) →
      ({ r with isActive := false } : CherryListing) ∈
        (reconcile rin now feed st).listings) ∧
    (∀ r, r ∈ st.listings → r.isActive = false →
      (∃ p, p ∈ feed.flatten ∧ passes rin p = true ∧ prod_key p = key_of r) →
      ∃ l, l ∈ (reconcile rin now feed st).listings ∧ l.id = r.id ∧
        l.isActive = true ∧ KeyCount (key_of r) (reconcile rin now feed st).listings = 1) := by
  constructor
  · intro r hr hact hobs
    rw [reconcile_eq_foldl]
    have hmem : ({ r with isActive := false } : CherryListing) ∈
        (mark_all_inactive st).listings := by
      rw [mark_all_inactive_listings]
      exact List.mem_map.mpr ⟨r, hr, by simp [hact]⟩
    exact foldl_mem_other rin now ({ r with isActive := false } : CherryListing)
      feed.flatten (fun p hp hpass => hobs p hp hpass) _ hmem
  · intro r hr hact hobs
    rw [reconcile_eq_foldl]
    obtain ⟨p, hpmem, hppass, hpkey⟩ := hobs
    have hc0 : KeyCount (key_of r) st.listings = 1 :=
      keycount_one_of_unique st.listings hk r hr
    have hi0 : KeyIds (key_of r) r.id st.listings :=
      keyids_of_unique st.listings hk r hr
    obtain ⟨s, t, hsplit⟩ := List.append_of_mem hpmem
    rw [hsplit, List.foldl_append, List.foldl_cons]
    have hmark_c : KeyCount (key_of r) (mark_all_inactive st).listings = 1 := by
      rw [mark_all_inactive_listings, keycount_map _ _ (fun x => (mark_fix_fields x).1)]
      exact hc0
    have hmark_i : KeyIds (key_of r) r.id (mark_all_inactive st).listings := by
      intro l hl hkl
      rw [mark_all_inactive_listings] at hl
      obtain ⟨y, hy, rfl⟩ := List.mem_map.mp hl
      rw [(mark_fix_fields y).2]
      exact hi0 y hy ((mark_fix_fields y).1 ▸ hkl)
    obtain ⟨hcA, hiA⟩ := foldl_keystate rin now (key_of r) r.id s _ hmark_c hmark_i
    obtain ⟨hcB, hiB⟩ := process_product_keystate rin now _ p _ _ hcA hiA
    have hactB : ActiveKey (key_of r)
        (process_product rin now (s.foldl (process_product rin now)
          (mark_all_inactive st)) p).listings :=
      hpkey ▸ process_product_establishes_active rin now _ p hppass
    obtain ⟨hcF, hiF⟩ := foldl_keystate rin now (key_of r) r.id t _ hcB hiB
    have hactF := foldl_preserves_active rin now (key_of r) t _ hactB
    obtain ⟨l, hlmem, hlk, hlact⟩ := hactF
    exact ⟨l, hlmem, hiF l hlmem hlk, hlact, hcF⟩

theorem reconcile_soft_delete_reactivate_witness :
    ((⟨7, 1, 11, 12, "PSA 10 Pikachu", "pika", "u", "i", 100, "EN", "PSA", 10,
        true, false, 0, 0⟩ : CherryListing) ∈
      (reconcile false 5 []
        ⟨[], 1, [⟨7, 1, 11, 12, "PSA 10 Pikachu", "pika", "u", "i", 100, "EN",
          "PSA", 10, true, true, 0, 0⟩], 8⟩).listings) ∧
    (∃ l, l ∈ (reconcile false 5
        [[⟨11, 12, "PSA 10 Pikachu", "pika", "u", "i", 120, true, []⟩]]
        ⟨[], 1, [⟨7, 1, 11, 12, "PSA 10 Pikachu", "pika", "u", "i", 100, "EN",
          "PSA", 10, true, false, 0, 0⟩], 8⟩).listings ∧ l.id = 7 ∧
      l.isActive = true ∧
      KeyCount (11, 12) (reconcile false 5
        [[⟨11, 12, "PSA 10 Pikachu", "pika", "u", "i", 120, true, []⟩]]
        ⟨[], 1, [⟨7, 1, 11, 12, "PSA 10 Pikachu", "pika", "u", "i", 100, "EN",
          "PSA", 10, true, false, 0, 0⟩], 8⟩).listings = 1) := by
  constructor
  · exact (reconcile_soft_delete_reactivate false 5 []
      ⟨[], 1, [⟨7, 1, 11, 12, "PSA 10 Pikachu", "pika", "u", "i", 100, "EN",
        "PSA", 10, true, true, 0, 0⟩], 8⟩
      (by simp [keys_unique])).1
      ⟨7, 1, 11, 12, "PSA 10 Pikachu", "pika", "u", "i", 100, "EN",
        "PSA", 10, true, true, 0, 0⟩ (by simp) rfl (by simp)
  · exact (reconcile_soft_delete_reactivate false 5
      [[⟨11, 12, "PSA 10 Pikachu", "pika", "u", "i", 120, true, []⟩]]
      ⟨[], 1, [⟨7, 1, 11, 12, "PSA 10 Pikachu", "pika", "u", "i", 100, "EN",
        "PSA", 10, true, false, 0, 0⟩], 8⟩
      (by simp [keys_unique])).2
      ⟨7, 1, 11, 12, "PSA 10 Pikachu", "pika", "u", "i", 100, "EN",
        "PSA", 10, true, false, 0, 0⟩ (by simp) rfl
      ⟨⟨11, 12, "PSA 10 Pikachu", "pika", "u", "i", 120, true, []⟩,
        by simp, by decide, by decide⟩

/-! ## The reconciliation invariant and second-pass simulation -/

theorem resolve_qid_of_found (qs : List SearchQuery) (p : CherryProduct)
    (q : SearchQuery)
    (h : qs.find? (fun q0 => q0.queryText == qt_of p && q0.language == lang_of p) =
      some q) : resolve_qid qs p = q.id := by
  unfold resolve_qid
  rw [h]

theorem resolve_qid_append (qs qs2 : List SearchQuery) (p : CherryProduct)
    (q : SearchQuery)
    (h : qs.find? (fun q0 => q0.queryText == qt_of p && q0.language == lang_of p) =
      some q) : resolve_qid (qs ++ qs2) p = resolve_qid qs p := by
  unfold resolve_qid
  rw [h, find?_append_some _ _ _ _ h]

theorem updateFirst_map_key (p : CherryProduct)
    (f g : CherryListing → CherryListing)
    (hg : ∀ l, key_of (g l) = key_of l) (ls : List CherryListing)
    (hpw : keys_unique ls) :
    updateFirst (listing_key_match p) f (ls.map g) =
      ls.map (fun l => if key_of l = prod_key p then f (g l) else g l) := by
  induction ls with
  | nil => rfl
  | cons x xs ih =>
    rcases List.pairwise_cons.mp hpw with ⟨hx, hxs⟩
    rw [List.map_cons, List.map_cons, updateFirst]
    by_cases hk : key_of x = prod_key p
    · have hpred : listing_key_match p (g x) = true :=
        (listing_key_match_iff p (g x)).mpr (by rw [hg x]; exact hk)
      rw [if_pos hpred, if_pos hk]
      congr 1
      exact (List.map_eq_map_iff.mpr (fun l hl => by
        rw [if_neg (fun hc => (hx l hl) (hk.trans hc.symm))])).symm
    · have hpred : listing_key_match p (g x) = false := by
        rw [Bool.eq_false_iff]
        intro hc
        exact hk (by rw [← hg x]; exact (listing_key_match_iff p (g x)).mp hc)
      rw [if_neg (by simp [hpred]), if_neg hk, ih hxs]

theorem recon_inv_init (rin : Bool) (st0 : ReconState)
    (hq : pairs_unique st0.queries) (hk : keys_unique st0.listings) :
    ReconInv rin [] (mark_all_inactive st0) := by
  refine ⟨hq, ?_, ?_, ?_, ?_⟩
  · show keys_unique (st0.listings.map _)
    exact List.Pairwise.map _
      (fun a b hab => by
        rw [(mark_fix_fields a).1, (mark_fix_fields b).1]; exact hab) hk
  · intro p hp
    simp at hp
  · intro p hp
    simp at hp
  · intro l hl hact
    exfalso
    rw [mark_all_inactive_listings] at hl
    obtain ⟨y, hy, rfl⟩ := List.mem_map.mp hl
    by_cases h : y.isActive
    · simp [h] at hact
    · simp [h] at hact

theorem recon_inv_step (rin : Bool) (now : Int) (done : List CherryProduct)
    (st : ReconState) (p : CherryProduct) (hinv : ReconInv rin done st) :
    ReconInv rin (done ++ [p]) (process_product rin now st p) := by
  by_cases hp : passes rin p = true
  case neg =>
    rw [process_product_skip rin now st p (by simpa using hp)]
    refine ⟨hinv.pairsU, hinv.keysU, ?_, ?_, ?_⟩
    · intro p2 hp2 hpass2
      rcases List.mem_append.mp hp2 with h | h
      · exact hinv.qfound p2 h hpass2
      · rw [List.mem_singleton.mp h] at hpass2
        exact absurd hpass2 (by simpa using hp)
    · intro p2 hp2 hpass2
      rcases List.mem_append.mp hp2 with h | h
      · exact hinv.krow p2 h hpass2
      · rw [List.mem_singleton.mp h] at hpass2
        exact absurd hpass2 (by simpa using hp)
    · intro l hl hact
      obtain ⟨p2, hp2, hpass2, hlast, heq⟩ := hinv.activeChar l hl hact
      refine ⟨p2, List.mem_append.mpr (Or.inl hp2), hpass2, ?_, heq⟩
      rw [last_passing_append_other rin done p _ (Or.inl (by simpa using hp))]
      exact hlast
  case pos =>
    rw [process_product_passing rin now st p hp]
    obtain ⟨qs2, hqapp, hlst, hnli⟩ :=
      ensure_query_state st (qt_of p) (cn_of p) (lang_of p)
    set st1 := (ensure_query st (qt_of p) (cn_of p) (lang_of p)).1 with hst1
    set qid := (ensure_query st (qt_of p) (cn_of p) (lang_of p)).2 with hqid
    obtain ⟨qnew, hqfound, hqid_eq⟩ :=
      ensure_query_resolves st (qt_of p) (cn_of p) (lang_of p)
    have hpairs1 : pairs_unique st1.queries :=
      ensure_query_pairs st _ _ _ hinv.pairsU
    have hkeys1 : keys_unique st1.listings := hlst ▸ hinv.keysU
    have hqf1 : ∀ p2, p2 ∈ done ++ [p] → passes rin p2 = true →
        ∃ q, st1.queries.find?
          (fun q0 => q0.queryText == qt_of p2 && q0.language == lang_of p2) =
          some q := by
      intro p2 hp2 hpass2
      rcases List.mem_append.mp hp2 with h | h
      · obtain ⟨q, hq⟩ := hinv.qfound p2 h hpass2
        exact ⟨q, by rw [hqapp]; exact find?_append_some _ _ _ _ hq⟩
      · rw [List.mem_singleton.mp h]
        exact ⟨qnew, hqfound⟩
    have hresolve_keep : ∀ p2, p2 ∈ done → passes rin p2 = true →
        resolve_qid st1.queries p2 = resolve_qid st.queries p2 := by
      intro p2 h hpass2
      obtain ⟨q, hq⟩ := hinv.qfound p2 h hpass2
      rw [hqapp]
      exact resolve_qid_append st.queries qs2 p2 q hq
    cases hfind : st1.listings.find? (listing_key_match p) with
    | some x =>
      rw [upsert_listing_update st1 qid (lang_of p) (grader_of p) (grade_of p)
        now p x hfind]
      obtain ⟨l1, l2, hdec, hl1pred, hupd⟩ := updateFirst_decomp _
        (refresh_listing qid (lang_of p) (grader_of p) (grade_of p) now p) _ x hfind
      have hkx : key_of x = prod_key p :=
        (listing_key_match_iff p x).mp (List.find?_some hfind)
      have hx_l2 : ∀ b, b ∈ l2 → key_of x ≠ key_of b := by
        have h2 := hkeys1
        rw [hdec] at h2
        rcases List.pairwise_append.mp h2 with ⟨_, hmid, _⟩
        exact (List.pairwise_cons.mp hmid).1
      refine ⟨hpairs1, ?_, hqf1, ?_, ?_⟩
      · exact keys_unique_updateFirst _ _
          (fun y => key_of_refresh _ _ _ _ _ _ y) _ hkeys1
      · intro p2 hp2 hpass2
        by_cases hk2 : prod_key p2 = prod_key p
        · refine ⟨refresh_listing qid (lang_of p) (grader_of p) (grade_of p) now p x,
            ?_, ?_, rfl⟩
          · show _ ∈ updateFirst _ _ st1.listings
            rw [hupd]
            exact List.mem_append.mpr (Or.inr (List.mem_cons_self _ _))
          · rw [key_of_refresh, hkx, hk2]
        · rcases List.mem_append.mp hp2 with h | h
          · obtain ⟨l0, hl0, hkl0, hactl0⟩ := hinv.krow p2 h hpass2
            have hpred0 : listing_key_match p l0 = false := by
              rw [Bool.eq_false_iff]
              intro hc
              exact hk2 (hkl0 ▸ (listing_key_match_iff p l0).mp hc)
            exact ⟨l0, mem_updateFirst_of_neg _ _ _ l0 (hlst ▸ hl0) hpred0,
              hkl0, hactl0⟩
          · rw [List.mem_singleton.mp h] at hk2
            exact absurd rfl hk2
      · intro l hl hact
        have holdchar : l ∈ st1.listings → key_of l ≠ prod_key p →
            ∃ p2, p2 ∈ done ++ [p] ∧ passes rin p2 = true ∧
              last_passing rin (done ++ [p]) (key_of l) = some p2 ∧
              ∀ m, refresh_listing (resolve_qid st1.queries p2) (lang_of p2)
                (grader_of p2) (grade_of p2) m p2 l = { l with lastSeenAt := m } := by
          intro hlmem hkne
          obtain ⟨p2, hp2, hpass2, hlast, heq⟩ :=
            hinv.activeChar l (hlst ▸ hlmem) hact
          refine ⟨p2, List.mem_append.mpr (Or.inl hp2), hpass2, ?_, ?_⟩
          · rw [last_passing_append_other rin done p _
              (Or.inr (fun hc => hkne hc.symm))]
            exact hlast
          · intro m
            rw [hresolve_keep p2 hp2 hpass2]
            exact heq m
        replace hl : l ∈ updateFirst (listing_key_match p)
            (refresh_listing qid (lang_of p) (grader_of p) (grade_of p) now p)
            st1.listings := hl
        rw [hupd] at hl
        rcases List.mem_append.mp hl with h | h
        · have hlmem : l ∈ st1.listings := by
            rw [hdec]
            exact List.mem_append.mpr (Or.inl h)
          refine holdchar hlmem ?_
          intro hc
          have := hl1pred l h
          rw [Bool.eq_false_iff] at this
          exact this ((listing_key_match_iff p l).mpr hc)
        · rcases List.mem_cons.mp h with rfl | h2
          · have hkey : key_of (refresh_listing qid (lang_of p) (grader_of p)
                (grade_of p) now p x) = prod_key p := by
              rw [key_of_refresh, hkx]
            refine ⟨p, List.mem_append.mpr (Or.inr (List.mem_singleton.mpr rfl)),
              hp, ?_, ?_⟩
            · rw [hkey]
              exact last_passing_append_passing rin done p hp
            · intro m
              apply refresh_eq_self_update
              all_goals try rfl
              show qid = resolve_qid st1.queries p
              rw [resolve_qid_of_found st1.queries p qnew hqfound, hqid_eq]
          · have hlmem : l ∈ st1.listings := by
              rw [hdec]
              exact List.mem_append.mpr (Or.inr (List.mem_cons_of_mem _ h2))
            refine holdchar hlmem ?_
            intro hc
            exact hx_l2 l h2 (hkx.trans hc.symm)
    | none =>
      rw [upsert_listing_insert st1 qid (lang_of p) (grader_of p) (grade_of p)
        now p hfind]
      have hnewkey : key_of (new_listing st1.nextListingId qid (lang_of p)
          (grader_of p) (grade_of p) now p) = prod_key p := rfl
      have hold_ne : ∀ l, l ∈ st1.listings → key_of l ≠ prod_key p := by
        intro l hl hc
        have := List.find?_eq_none.mp hfind l hl
        exact this ((listing_key_match_iff p l).mpr hc)
      refine ⟨hpairs1, ?_, hqf1, ?_, ?_⟩
      · show keys_unique (st1.listings ++ [_])
        rw [keys_unique, List.pairwise_append]
        refine ⟨hkeys1, List.pairwise_singleton _ _, ?_⟩
        intro a ha b hb
        rw [List.mem_singleton.mp hb, hnewkey]
        exact hold_ne a ha
      · intro p2 hp2 hpass2
        by_cases hk2 : prod_key p2 = prod_key p
        · exact ⟨new_listing st1.nextListingId qid (lang_of p) (grader_of p)
            (grade_of p) now p,
            List.mem_append.mpr (Or.inr (List.mem_singleton.mpr rfl)),
            by rw [hnewkey, hk2], rfl⟩
        · rcases List.mem_append.mp hp2 with h | h
          · obtain ⟨l0, hl0, hkl0, hactl0⟩ := hinv.krow p2 h hpass2
            exact ⟨l0, List.mem_append.mpr (Or.inl (hlst ▸ hl0)), hkl0, hactl0⟩
          · rw [List.mem_singleton.mp h] at hk2
            exact absurd rfl hk2
      · intro l hl hact
        rcases List.mem_append.mp hl with h | h
        · obtain ⟨p2, hp2, hpass2, hlast, heq⟩ :=
            hinv.activeChar l (hlst ▸ h) hact
          refine ⟨p2, List.mem_append.mpr (Or.inl hp2), hpass2, ?_, ?_⟩
          · rw [last_passing_append_other rin done p _
              (Or.inr (fun hc => hold_ne l h hc.symm))]
            exact hlast
          · intro m
            rw [hresolve_keep p2 hp2 hpass2]
            exact heq m
        · rw [List.mem_singleton.mp h]
          refine ⟨p, List.mem_append.mpr (Or.inr (List.mem_singleton.mpr rfl)),
            hp, ?_, ?_⟩
          · rw [hnewkey]
            exact last_passing_append_passing rin done p hp
          · intro m
            apply refresh_eq_self_update
            all_goals try rfl
            show qid = resolve_qid st1.queries p
            rw [resolve_qid_of_found st1.queries p qnew hqfound, hqid_eq]

theorem recon_inv_fold (rin : Bool) (now : Int) (prods : List CherryProduct) :
    ∀ (done : List CherryProduct) (st : ReconState), ReconInv rin done st →
      ReconInv rin (done ++ prods)
        (prods.foldl (process_product rin now) st) := by
  induction prods with
  | nil => intro done st h; simpa using h
  | cons p rest ih =>
    intro done st h
    rw [List.foldl_cons]
    have h2 := recon_inv_step rin now done st p h
    have h3 := ih (done ++ [p]) _ h2
    simpa using h3

theorem run2_fold_sim (rin : Bool) (n2 : Int) (prodsAll : List CherryProduct)
    (s1 : ReconState) (hinv : ReconInv rin prodsAll s1) :
    ∀ done, (∀ x, x ∈ done → x ∈ prodsAll) →
      done.foldl (process_product rin n2) (mark_all_inactive s1) =
        { s1 with listings := s1.listings.map (run2_fix rin n2 s1.queries done) } := by
  intro done
  induction done using List.reverseRecOn with
  | nil =>
    intro _
    rw [List.foldl_nil]
    congr 1
  | append_singleton done p ih =>
    intro hsub
    have hsub0 : ∀ x, x ∈ done → x ∈ prodsAll :=
      fun x hx => hsub x (List.mem_append.mpr (Or.inl hx))
    have hpmem : p ∈ prodsAll :=
      hsub p (List.mem_append.mpr (Or.inr (List.mem_singleton.mpr rfl)))
    rw [List.foldl_append, ih hsub0, List.foldl_cons, List.foldl_nil]
    by_cases hp : passes rin p = true
    · obtain ⟨q, hq⟩ := hinv.qfound p hpmem hp
      rw [process_product_passing rin n2 _ p hp]
      have hyq : ({ s1 with
          listings := s1.listings.map (run2_fix rin n2 s1.queries done) } :
            ReconState).queries.find?
          (fun q0 => q0.queryText == qt_of p && q0.language == lang_of p) =
          some q := hq
      rw [ensure_query_found _ (qt_of p) (cn_of p) (lang_of p) q hyq]
      dsimp only
      obtain ⟨l0, hl0, hkl0, hactl0⟩ := hinv.krow p hpmem hp
      have hl0map : run2_fix rin n2 s1.queries done l0 ∈
          s1.listings.map (run2_fix rin n2 s1.queries done) :=
        List.mem_map_of_mem _ hl0
      have hl0key : listing_key_match p (run2_fix rin n2 s1.queries done l0) =
          true :=
        (listing_key_match_iff _ _).mpr
          (by rw [key_of_run2_fix, hkl0])
      cases hfind : ({ s1 with
          listings := s1.listings.map (run2_fix rin n2 s1.queries done) } :
            ReconState).listings.find? (listing_key_match p) with
      | none =>
        exfalso
        exact (List.find?_eq_none.mp hfind _ hl0map) hl0key
      | some x =>
        rw [upsert_listing_update _ q.id (lang_of p) (grader_of p) (grade_of p)
          n2 p x hfind]
        show ({ s1 with listings := _ } : ReconState) = _
        congr 1
        show updateFirst (listing_key_match p) _
            (s1.listings.map (run2_fix rin n2 s1.queries done)) = _
        rw [updateFirst_map_key p _ (run2_fix rin n2 s1.queries done)
          (fun l => key_of_run2_fix rin n2 s1.queries done l) s1.listings
          hinv.keysU]
        apply List.map_eq_map_iff.mpr
        intro l hl
        by_cases hk : key_of l = prod_key p
        · rw [if_pos hk]
          have hres : resolve_qid s1.queries p = q.id :=
            resolve_qid_of_found s1.queries p q hq
          have hrhs : run2_fix rin n2 s1.queries (done ++ [p]) l =
              refresh_listing (resolve_qid s1.queries p) (lang_of p)
                (grader_of p) (grade_of p) n2 p l := by
            rw [run2_fix, hk, last_passing_append_passing rin done p hp]
          rw [hrhs, hres]
          have hb := run2_fix_base_fields rin n2 s1.queries done l
          exact refresh_listing_absorb q.id (lang_of p) (grader_of p)
            (grade_of p) n2 p _ l hb.1 hb.2.1 hb.2.2.1 hb.2.2.2
        · rw [if_neg hk]
          rw [run2_fix, run2_fix,
            last_passing_append_other rin done p _
              (Or.inr (fun hc => hk hc.symm))]
    · rw [process_product_skip rin n2 _ p (by simpa using hp)]
      congr 1
      apply List.map_eq_map_iff.mpr
      intro l hl
      rw [run2_fix, run2_fix,
        last_passing_append_other rin done p _ (Or.inl (by simpa using hp))]

/-- C7: running the Listing Reconciler twice over identical feed output yields
identical persisted state: the query table, id counters and listing rows are
unchanged, no rows are added or dropped, every active flag is the same, and
the only field that moves is `last_seen_at` on the re-observed (active)
rows. -/
theorem reconcile_idempotent (rin : Bool) (n1 n2 : Int)
    (feed : List (List CherryProduct)) (st0 : ReconState)
    (hq : pairs_unique st0.queries) (hk : keys_unique st0.listings) :
    reconcile rin n2 feed (reconcile rin n1 feed st0) =
      { reconcile rin n1 feed st0 with
        listings := (reconcile rin n1 feed st0).listings.map
          (fun l => if l.isActive then { l with lastSeenAt := n2 } else l) } := by
  have hinv0 := recon_inv_init rin st0 hq hk
  have hinv1 := recon_inv_fold rin n1 feed.flatten [] _ hinv0
  simp only [List.nil_append] at hinv1
  rw [← reconcile_eq_foldl rin n1 feed st0] at hinv1
  rw [reconcile_eq_foldl rin n2 feed (reconcile rin n1 feed st0)]
  rw [run2_fold_sim rin n2 feed.flatten (reconcile rin n1 feed st0) hinv1
    feed.flatten (fun x hx => hx)]
  congr 1
  apply List.map_eq_map_iff.mpr
  intro l hl
  by_cases hact : l.isActive = true
  · obtain ⟨p, hpmem, hpass, hlast, heq⟩ := hinv1.activeChar l hl hact
    rw [run2_fix, hlast]
    dsimp only
    rw [if_pos hact]
    exact heq n2
  · rw [run2_fix]
    cases hlp : last_passing rin feed.flatten (key_of l) with
    | none =>
      dsimp only
      rw [if_neg hact, if_neg hact]
    | some p =>
      exfalso
      obtain ⟨hpmem, hpass, hpkey⟩ := last_passing_mem _ _ _ _ hlp
      obtain ⟨l2, hl2, hkl2, hactl2⟩ := hinv1.krow p hpmem hpass
      have hne : l ≠ l2 := fun he => hact (he ▸ hactl2)
      have hsym : Symmetric (fun a b : CherryListing => key_of a ≠ key_of b) :=
        fun a b hab hba => hab hba.symm
      exact (hinv1.keysU.forall hsym hl hl2 hne) (hpkey ▸ hkl2).symm

theorem reconcile_idempotent_witness :
    reconcile false 9
        [[⟨11, 12, "PSA 10 Pikachu", "pika", "u", "i", 120, true, []⟩]]
        (reconcile false 5
          [[⟨11, 12, "PSA 10 Pikachu", "pika", "u", "i", 120, true, []⟩]]
          ⟨[], 1, [], 1⟩) =
      { reconcile false 5
          [[⟨11, 12, "PSA 10 Pikachu", "pika", "u", "i", 120, true, []⟩]]
          ⟨[], 1, [], 1⟩ with
        listings := (reconcile false 5
          [[⟨11, 12, "PSA 10 Pikachu", "pika", "u", "i", 120, true, []⟩]]
          ⟨[], 1, [], 1⟩).listings.map
            (fun l => if l.isActive then { l with lastSeenAt := 9 } else l) } :=
  reconcile_idempotent false 5 9
    [[⟨11, 12, "PSA 10 Pikachu", "pika", "u", "i", 120, true, []⟩]]
    ⟨[], 1, [], 1⟩ (by simp [pairs_unique]) (by simp [keys_unique])

end PokeArb
